import Mathlib

/-!
Verification of the signposting data model (`src/signposting/signpost.py`).

The Python classes `AbsoluteURI`, `MediaType`, `LinkRel`, `Signpost` and
`Signposting` are embedded shallowly: Python sets keyed by the custom
`Signpost.__eq__` become lists with insert-if-absent semantics, optional
attributes become `Option`, fallible constructors return `Except`.
-/

/-- `AbsoluteURI` from signpost.py: a (tagged) URI string.  Syntactic
validity is checked by `AbsoluteURI.construct` below, mirroring
`AbsoluteURI.__new__`. -/
structure AbsoluteURI where
  uri : String
deriving DecidableEq

/-- `MediaType` from signpost.py, kept abstract here: the claims under
verification only compare media types for equality, so we record the
validated lower-cased `main/sub` string. -/
structure MediaType where
  value : String
deriving DecidableEq

/-- `LinkRel` enum from signpost.py: the eight FAIR signposting relations. -/
inductive LinkRel
  | author
  | collection
  | describedby
  | item
  | cite_as
  | type
  | license
  | linkset
deriving DecidableEq

/-- The RFC8288 string value of each enum member (`LinkRel.value` in Python;
note `cite_as` has value `"cite-as"`). -/
def LinkRel.value : LinkRel → String
  | .author => "author"
  | .collection => "collection"
  | .describedby => "describedby"
  | .item => "item"
  | .cite_as => "cite-as"
  | .type => "type"
  | .license => "license"
  | .linkset => "linkset"

/-- `LinkRel(rel)` value lookup: Python `Enum` call looks the string up among
the member values by exact string equality and raises `ValueError` when no
member value matches.  (`signpost.py` defines no `_missing_` hook, so the
lookup is case-sensitive.) -/
def LinkRel.construct (x : String) : Except String LinkRel :=
  if x = "author" then .ok .author
  else if x = "collection" then .ok .collection
  else if x = "describedby" then .ok .describedby
  else if x = "item" then .ok .item
  else if x = "cite-as" then .ok .cite_as
  else if x = "type" then .ok .type
  else if x = "license" then .ok .license
  else if x = "linkset" then .ok .linkset
  else .error "is not a valid LinkRel"

/-- Opaque stand-in for the `httplink.Link` provenance object held by
`Signpost.link`; its content never takes part in `Signpost` equality. -/
structure Link where
  linkId : Nat
deriving DecidableEq

/-- `Signpost` from signpost.py: one typed navigational link.  `profiles`
is a Python `frozenset`, modelled as a `Finset`. -/
structure Signpost where
  rel : LinkRel
  target : AbsoluteURI
  type : Option MediaType
  profiles : Finset AbsoluteURI
  context : Option AbsoluteURI
  link : Option Link
deriving DecidableEq

/-- The tuple of attributes yielded by `Signpost._eq_attribs`, in order:
context, rel, target, type, profiles.  `link` is deliberately absent. -/
def Signpost.core (s : Signpost) :
    Option AbsoluteURI × LinkRel × AbsoluteURI × Option MediaType × Finset AbsoluteURI :=
  (s.context, s.rel, s.target, s.type, s.profiles)

/-- `Signpost.__eq__`: attribute-wise comparison of `_eq_attribs`. -/
def Signpost.sigEq (a b : Signpost) : Bool :=
  a.core = b.core

/-- `Signpost.__init__` path for the `profiles` argument when a set is
given: `self.profiles = frozenset(profiles)`.  Building the frozenset from
an iterable of profile URIs. -/
def Signpost.ofProfiles (r : LinkRel) (t : AbsoluteURI) (mt : Option MediaType)
    (ps : List AbsoluteURI) (ctx : Option AbsoluteURI) (lk : Option Link) : Signpost :=
  { rel := r, target := t, type := mt, profiles := ps.toFinset, context := ctx, link := lk }

/-- `Signpost.with_context`: copy of the signpost with the given context
(all other attributes pass unchanged through the constructor because they
are already typed values). -/
def Signpost.with_context (s : Signpost) (c : Option AbsoluteURI) : Signpost :=
  { s with context := c }

/-! ### Hashing

`Signpost.__hash__` XORs `hash(qualname)` with the hash of each
`_eq_attribs` element; `hash` of the `profiles` frozenset is itself an
order-independent combination of member hashes.  CPython string hashing is
process-randomized, so the primitive string hash is modelled by a fixed
concrete function; the XOR combination structure is kept from the source. -/

/-- Fixed stand-in for the primitive string hash. -/
def strHash (s : String) : Nat :=
  s.foldl (fun h c => h * 31 + c.toNat) 7

def uriHash (u : AbsoluteURI) : Nat := strHash u.uri

def optUriHash : Option AbsoluteURI → Nat
  | none => 0
  | some u => uriHash u

def relHash (r : LinkRel) : Nat := strHash r.value

def mtHash : Option MediaType → Nat
  | none => 0
  | some m => strHash m.value

instance : Std.Commutative (fun a b : Nat => a ^^^ b) := ⟨Nat.xor_comm⟩
instance : Std.Associative (fun a b : Nat => a ^^^ b) := ⟨Nat.xor_assoc⟩

/-- Hash of the `profiles` frozenset: an order-independent XOR of member
hashes (CPython frozenset hashing is likewise order-independent). -/
def profilesHash (p : Finset AbsoluteURI) : Nat :=
  Finset.fold (fun a b : Nat => a ^^^ b) 0 uriHash p

/-- `Signpost.__hash__`: `hash(qualname)` XORed with each attribute hash. -/
def Signpost.sigHash (s : Signpost) : Nat :=
  strHash "Signpost" ^^^ optUriHash s.context ^^^ relHash s.rel ^^^
    uriHash s.target ^^^ mtHash s.type ^^^ profilesHash s.profiles

/-! ### Python set of signposts

Mutable Python `set`/`frozenset` keyed by `Signpost.__eq__` are modelled as
lists in insertion order with insert-if-absent. -/

/-- `set.add`: keep the existing element when an equal one is present. -/
def pyAdd (l : List Signpost) (s : Signpost) : List Signpost :=
  if l.any (fun t => t.sigEq s) then l else l ++ [s]

/-- `frozenset(iterable)`: deduplicate, keeping first occurrences. -/
def pyFrozenset (l : List Signpost) : List Signpost :=
  l.foldl pyAdd []

/-- The set of `_eq_attribs` tuples of a list of signposts: the extension
of the corresponding Python set. -/
def coreSet (l : List Signpost) :
    Finset (Option AbsoluteURI × LinkRel × AbsoluteURI × Option MediaType × Finset AbsoluteURI) :=
  (l.map Signpost.core).toFinset

/-- Membership up to Python `Signpost` equality. -/
def coreMem (s : Signpost) (l : List Signpost) : Prop :=
  s.core ∈ l.map Signpost.core

/-! ### RFC 3986 `absolute_URI` recognizer

`AbsoluteURI.__new__` validates with `rfc3987.parse(uri, rule="absolute_URI")`,
whose URI rules are the RFC 3986 grammar:
`absolute-URI = scheme ":" hier-part [ "?" query ]` (no fragment).
The recognizer below follows that grammar.  The alternation
`host = IP-literal / IPv4address / reg-name` is recognized as
`IP-literal / reg-name`, which accepts exactly the same strings because
every `IPv4address` is also a `reg-name`. -/

def isAlphaCh (c : Char) : Bool :=
  (Char.ofNat 97 ≤ c && c ≤ Char.ofNat 122) || (Char.ofNat 65 ≤ c && c ≤ Char.ofNat 90)

def isDigitCh (c : Char) : Bool :=
  Char.ofNat 48 ≤ c && c ≤ Char.ofNat 57

def isHexDig (c : Char) : Bool :=
  isDigitCh c || (Char.ofNat 97 ≤ c && c ≤ Char.ofNat 102)
    || (Char.ofNat 65 ≤ c && c ≤ Char.ofNat 70)

def isUnreserved (c : Char) : Bool :=
  isAlphaCh c || isDigitCh c || c = '-' || c = '.' || c = '_' || c = '~'

def isSubDelim (c : Char) : Bool :=
  c = '!' || c = '$' || c = '&' || c.toNat = 39 || c = '(' || c = ')'
    || c = '*' || c = '+' || c = ',' || c = ';' || c = '='

def isSchemeCh (c : Char) : Bool :=
  isAlphaCh c || isDigitCh c || c = '+' || c = '-' || c = '.'

def isPch (c : Char) : Bool :=
  isUnreserved c || isSubDelim c || c = ':' || c = '@'

def isUserinfoCh (c : Char) : Bool :=
  isUnreserved c || isSubDelim c || c = ':'

def isRegNameCh (c : Char) : Bool :=
  isUnreserved c || isSubDelim c

/-- A run of characters from `ok` interleaved with `pct-encoded`
(`"%" HEXDIG HEXDIG`) escapes. -/
def validSeq (ok : Char → Bool) : List Char → Bool
  | [] => true
  | '%' :: a :: b :: rest => isHexDig a && isHexDig b && validSeq ok rest
  | '%' :: _ => false
  | c :: rest => ok c && validSeq ok rest

/-- Split at the first occurrence of `c`; the separator is dropped. -/
def splitOnFirst (c : Char) : List Char → Option (List Char × List Char)
  | [] => none
  | x :: xs =>
    if x = c then some ([], xs)
    else match splitOnFirst c xs with
      | none => none
      | some (pre, post) => some (x :: pre, post)

theorem splitOnFirst_post_lt (c : Char) :
    ∀ (l pre post : List Char), splitOnFirst c l = some (pre, post) →
      post.length < l.length := by
  intro l
  induction l with
  | nil => intro pre post h; simp [splitOnFirst] at h
  | cons x xs ih =>
    intro pre post h
    simp only [splitOnFirst] at h
    split at h
    · cases h
      simp
    · cases hs : splitOnFirst c xs with
      | none => rw [hs] at h; cases h
      | some pr =>
        rw [hs] at h
        cases h
        have := ih pr.1 pr.2 (by rw [hs])
        simp
        omega

/-- Split at every occurrence of `c` (like Python `str.split`). -/
def splitAll (c : Char) (l : List Char) : List (List Char) :=
  match h : splitOnFirst c l with
  | none => [l]
  | some (pre, post) => pre :: splitAll c post
termination_by l.length
decreasing_by
  exact splitOnFirst_post_lt c l pre post h

/-- `dec-octet` of `IPv4address`: 0-255 with no leading zeroes. -/
def decOctet : List Char → Bool
  | [a] => isDigitCh a
  | [a, b] => (Char.ofNat 49 ≤ a && a ≤ Char.ofNat 57) && isDigitCh b
  | [a, b, c] =>
    (a = '1' && isDigitCh b && isDigitCh c)
      || (a = '2' && (Char.ofNat 48 ≤ b && b ≤ Char.ofNat 52) && isDigitCh c)
      || (a = '2' && b = '5' && (Char.ofNat 48 ≤ c && c ≤ Char.ofNat 53))
  | _ => false

def isIPv4 (l : List Char) : Bool :=
  match splitAll '.' l with
  | [a, b, c, d] => decOctet a && decOctet b && decOctet c && decOctet d
  | _ => false

/-- `h16`: one to four hexadecimal digits. -/
def isH16 (g : List Char) : Bool :=
  decide (1 ≤ g.length) && decide (g.length ≤ 4) && g.all isHexDig

/-- Number of 16-bit units contributed by a run of `h16` groups. -/
def h16Units : List (List Char) → Option Nat
  | [] => some 0
  | g :: rest => if isH16 g then (h16Units rest).map (· + 1) else none

/-- Units contributed by the part right of a `"::"` (or a full address):
`h16` groups where the final group may instead be an `IPv4address`
(the `ls32` alternative), worth two units. -/
def rightUnits (l : List Char) : Option Nat :=
  if l.isEmpty then some 0
  else
    let gs := splitAll ':' l
    match gs.getLast? with
    | none => some 0
    | some last =>
      match h16Units gs.dropLast with
      | none => none
      | some n =>
        if isH16 last then some (n + 1)
        else if isIPv4 last then some (n + 2)
        else none

/-- Find the first `"::"`, returning the parts before and after it. -/
def splitDoubleColon : List Char → Option (List Char × List Char)
  | [] => none
  | [_] => none
  | ':' :: ':' :: rest => some ([], rest)
  | x :: xs =>
    match splitDoubleColon xs with
    | none => none
    | some (pre, post) => some (x :: pre, post)

/-- `IPv6address` (RFC 3986 collapsed form): without `"::"` exactly eight
units; with one `"::"` at most seven units in total, `h16` groups on the
left and `h16` groups with an optional trailing `IPv4address` on the
right. -/
def isIPv6 (l : List Char) : Bool :=
  match splitDoubleColon l with
  | none =>
    if l.isEmpty then false
    else rightUnits l = some 8
  | some (lft, rgt) =>
    match (if lft.isEmpty then some 0 else h16Units (splitAll ':' lft)),
        rightUnits rgt with
    | some a, some b => decide (a + b ≤ 7)
    | _, _ => false

/-- `IPvFuture = "v" 1*HEXDIG "." 1*( unreserved / sub-delims / ":" )`
(the rfc3987 regex spells the leading `v` in lowercase). -/
def isIPvFuture : List Char → Bool
  | 'v' :: rest =>
    match splitOnFirst '.' rest with
    | none => false
    | some (hx, tail) =>
      decide (1 ≤ hx.length) && hx.all isHexDig
        && decide (1 ≤ tail.length) && tail.all isUserinfoCh
  | _ => false

/-- `host [ ":" port ]`: an `IP-literal` in brackets, or a `reg-name`
(which subsumes `IPv4address`), then an all-digit port. -/
def isHostPort (l : List Char) : Bool :=
  match l with
  | '[' :: rest =>
    match splitOnFirst ']' rest with
    | none => false
    | some (inner, post) =>
      (isIPv6 inner || isIPvFuture inner)
        && (match post with
            | [] => true
            | ':' :: p => p.all isDigitCh
            | _ => false)
  | _ =>
    match splitOnFirst ':' l with
    | none => validSeq isRegNameCh l
    | some (h, p) => validSeq isRegNameCh h && p.all isDigitCh

/-- `authority = [ userinfo "@" ] host [ ":" port ]`. -/
def isAuthority (l : List Char) : Bool :=
  match splitOnFirst '@' l with
  | some (u, hp) => validSeq isUserinfoCh u && isHostPort hp
  | none => isHostPort l

/-- `hier-part`: `"//" authority path-abempty`, `path-absolute`,
`path-rootless` or `path-empty`. -/
def isHierPart : List Char → Bool
  | '/' :: '/' :: rest =>
    (match splitOnFirst '/' rest with
     | none => isAuthority rest
     | some (auth, path) =>
       isAuthority auth && validSeq (fun c => isPch c || c = '/') path)
  | [] => true
  | '/' :: rest =>
    (match rest with
     | [] => true
     | c :: _ =>
       !(c = '/') && validSeq (fun c => isPch c || c = '/') rest)
  | l => validSeq (fun c => isPch c || c = '/') l

/-- `absolute-URI = scheme ":" hier-part [ "?" query ]`. -/
def isAbsoluteURIChars (l : List Char) : Bool :=
  match splitOnFirst ':' l with
  | none => false
  | some (sch, rest) =>
    (match sch with
     | [] => false
     | c :: cs => isAlphaCh c && cs.all isSchemeCh)
      && (match splitOnFirst '?' rest with
          | none => isHierPart rest
          | some (h, q) =>
            isHierPart h && validSeq (fun c => isPch c || c = '/' || c = '?') q)

def isAbsoluteURI (s : String) : Bool :=
  isAbsoluteURIChars s.toList

/-! ### URI reference resolution -/

/-- Generic URI-reference components (RFC 3986 appendix B). -/
structure URIRef where
  scheme : Option (List Char)
  authority : Option (List Char)
  path : List Char
  query : Option (List Char)
  fragment : Option (List Char)

/-- Take the longest prefix not containing any of the stop characters. -/
def takeUntil (stops : List Char) (l : List Char) : List Char × List Char :=
  match l with
  | [] => ([], [])
  | c :: cs =>
    if stops.contains c then ([], c :: cs)
    else
      let (pre, post) := takeUntil stops cs
      (c :: pre, post)

/-- Split a URI reference into its five components. -/
def splitURIRef (l : List Char) : URIRef :=
  let (beforeFrag, fragPart) := takeUntil ['#'] l
  let frag : Option (List Char) :=
    match fragPart with
    | _ :: fs => some fs
    | [] => none
  let (schemeOpt, rest) :=
    match splitOnFirst ':' beforeFrag with
    | some (sch, after) =>
      if (match sch with
          | [] => false
          | c :: cs => isAlphaCh c && cs.all isSchemeCh)
          && !(sch.contains '/') && !(sch.contains '?')
      then (some sch, after)
      else (none, beforeFrag)
    | none => (none, beforeFrag)
  let (authOpt, rest2) :=
    match rest with
    | '/' :: '/' :: r =>
      let (auth, r2) := takeUntil ['/', '?'] r
      (some auth, r2)
    | _ => (none, rest)
  let (path, queryPart) := takeUntil ['?'] rest2
  let query : Option (List Char) :=
    match queryPart with
    | _ :: qs => some qs
    | [] => none
  { scheme := schemeOpt, authority := authOpt, path := path,
    query := query, fragment := frag }

/-- Reassemble components (RFC 3986 section 5.3). -/
def recomposeURIRef (r : URIRef) : List Char :=
  (match r.scheme with | some s => s ++ [':'] | none => [])
    ++ (match r.authority with | some a => '/' :: '/' :: a | none => [])
    ++ r.path
    ++ (match r.query with | some q => '?' :: q | none => [])
    ++ (match r.fragment with | some f => '#' :: f | none => [])

/-- Drop the last `/segment` of a buffer (helper of `remove_dot_segments`). -/
def popLastSeg (output : List Char) : List Char :=
  ((output.reverse.dropWhile (fun c => !(c = '/'))).drop 1).reverse

/-- One output segment step of `remove_dot_segments` (RFC 3986 5.2.4),
on path split into `/`-separated segments. -/
def removeDotSegs (fuel : Nat) (input : List Char) (output : List Char) : List Char :=
  match fuel with
  | 0 => output ++ input
  | fuel + 1 =>
    match input with
    | [] => output
    | '.' :: '.' :: '/' :: rest => removeDotSegs fuel rest output
    | '.' :: '/' :: rest => removeDotSegs fuel rest output
    | '/' :: '.' :: '/' :: rest => removeDotSegs fuel ('/' :: rest) output
    | ['/', '.'] => removeDotSegs fuel ['/'] output
    | '/' :: '.' :: '.' :: '/' :: rest =>
      removeDotSegs fuel ('/' :: rest) (popLastSeg output)
    | ['/', '.', '.'] => removeDotSegs fuel ['/'] (popLastSeg output)
    | ['.'] => output
    | ['.', '.'] => output
    | c :: rest =>
      let (seg, rest2) := takeUntil ['/'] rest
      removeDotSegs fuel rest2 (output ++ c :: seg)

def removeDotSegments (p : List Char) : List Char :=
  removeDotSegs (p.length + 2) p []

/-- `merge` of a base path and a relative path (RFC 3986 5.2.3). -/
def mergePaths (baseHasAuthority : Bool) (basePath relPath : List Char) : List Char :=
  if baseHasAuthority && basePath.isEmpty then '/' :: relPath
  else (popLastSeg basePath ++ ['/']) ++ relPath

/-- Transform references (RFC 3986 5.2.2), strict form. -/
def resolveRef (base r : URIRef) : URIRef :=
  if r.scheme.isSome then
    { scheme := r.scheme, authority := r.authority,
      path := removeDotSegments r.path, query := r.query, fragment := r.fragment }
  else if r.authority.isSome then
    { scheme := base.scheme, authority := r.authority,
      path := removeDotSegments r.path, query := r.query, fragment := r.fragment }
  else if r.path.isEmpty then
    { scheme := base.scheme, authority := base.authority, path := base.path,
      query := (if r.query.isSome then r.query else base.query),
      fragment := r.fragment }
  else
    { scheme := base.scheme, authority := base.authority,
      path :=
        (if r.path.head? = some '/' then removeDotSegments r.path
         else removeDotSegments
           (mergePaths base.authority.isSome base.path r.path)),
      query := r.query, fragment := r.fragment }

/-- Modelled from the spec: `urllib.parse.urljoin` (Python standard
library, not part of this repository).  The spec describes it as resolving
the possibly-relative reference `url` against `base` by standard
URI-reference resolution; modelled here as RFC 3986 reference resolution,
keeping Python short-circuits: an empty base returns `url` unchanged and
an empty url returns `base` unchanged. -/
def urljoin (base url : String) : String :=
  if base = "" then url
  else if url = "" then base
  else
    String.mk (recomposeURIRef (resolveRef (splitURIRef base.toList) (splitURIRef url.toList)))

/-- Input to `AbsoluteURI.__new__`: either an existing `AbsoluteURI`
instance or a plain string (the `isinstance(value, cls)` branch). -/
inductive URIInput
  | uri (a : AbsoluteURI)
  | str (s : String)

/-- `AbsoluteURI.__new__`: an existing instance is returned as-is without
re-validation; otherwise the value is resolved against `base or ""` with
`urljoin`, validated by `rfc3987.parse(uri, rule="absolute_URI")`
(raising `ValueError` on failure) and wrapped. -/
def AbsoluteURI.construct (value : URIInput) (base : Option String) :
    Except String AbsoluteURI :=
  match value with
  | .uri a => .ok a
  | .str v =>
    let u := urljoin (base.getD "") v
    if isAbsoluteURI u then .ok ⟨u⟩
    else .error "is not a valid absolute URI"

/-! ### The Signposting aggregate -/

/-- Python truthiness of an optional URI: `None` and the empty string are
falsy. -/
def optTruthy : Option AbsoluteURI → Bool
  | none => false
  | some c => !(c.uri = "")

/-- `Signposting` from signpost.py.  `extras` and `others` model the
internal `_extras` and `_others` sets; the multi-valued slots and the two
sets are lists in insertion order with Python-set (insert-if-absent)
semantics. -/
structure Signposting where
  context_url : Option AbsoluteURI
  citeAs : Option Signpost
  license : Option Signpost
  collection : Option Signpost
  authors : List Signpost
  describedBy : List Signpost
  items : List Signpost
  linksets : List Signpost
  types : List Signpost
  other_contexts : List AbsoluteURI
  extras : List Signpost
  others : List Signpost
deriving DecidableEq

/-- The empty aggregate with the given (already normalized) context. -/
def Signposting.empty (ctxu : Option AbsoluteURI) : Signposting :=
  { context_url := ctxu, citeAs := none, license := none, collection := none,
    authors := [], describedBy := [], items := [], linksets := [], types := [],
    other_contexts := [], extras := [], others := [] }

/-- `set.add` for the `other_contexts` set of URIs. -/
def addCtx (l : List AbsoluteURI) (c : AbsoluteURI) : List AbsoluteURI :=
  if l.contains c then l else l ++ [c]

/-- State threaded through the `__init__` classification loop: the
aggregate under construction plus the warnings emitted so far. -/
structure BuildState where
  sp : Signposting
  warnings : List String

/-- The effective context of a candidate signpost: its own context, or the
aggregate context when the signpost has none and implicit contexts are
included. -/
def effContext (include_no_context : Bool) (ctxu : Option AbsoluteURI)
    (s : Signpost) : Option AbsoluteURI :=
  if include_no_context && !optTruthy s.context then ctxu else s.context

/-- Whether the classification loop buckets `s` as belonging to another
context: the aggregate has a (truthy) context and it differs from the
effective context of `s`. -/
def isOtherB (include_no_context : Bool) (ctxu : Option AbsoluteURI)
    (s : Signpost) : Bool :=
  optTruthy ctxu && !(ctxu = effContext include_no_context ctxu s)

/-- One iteration of the `__init__` classification loop of `Signposting`:
substitute the implicit context, bucket signposts of other contexts, then
dispatch on the link relation with first-slot/overflow handling for the
singular relations.  (The final `else: warn unrecognized` arm of the
source loop is unreachable here because `LinkRel` is closed.) -/
def classifyStep (include_no_context warn_duplicate : Bool)
    (st : BuildState) (s : Signpost) : BuildState :=
  let ctxu := st.sp.context_url
  let context := effContext include_no_context ctxu s
  if isOtherB include_no_context ctxu s then
    { st with sp := { st.sp with
        others := pyAdd st.sp.others s,
        other_contexts :=
          if optTruthy context then
            match context with
            | some c => addCtx st.sp.other_contexts c
            | none => st.sp.other_contexts
          else st.sp.other_contexts } }
  else
    match s.rel with
    | .cite_as =>
      match st.sp.citeAs with
      | some existing =>
        if !(existing.target = s.target) then
          { sp := { st.sp with extras := pyAdd st.sp.extras s },
            warnings := st.warnings ++
              (if warn_duplicate then ["Ignoring additional cite-as signposts"] else []) }
        else { st with sp := { st.sp with citeAs := some s } }
      | none => { st with sp := { st.sp with citeAs := some s } }
    | .license =>
      match st.sp.license with
      | some existing =>
        if !(existing.target = s.target) then
          { sp := { st.sp with extras := pyAdd st.sp.extras s },
            warnings := st.warnings ++
              (if warn_duplicate then ["Ignoring additional license signposts"] else []) }
        else { st with sp := { st.sp with license := some s } }
      | none => { st with sp := { st.sp with license := some s } }
    | .collection =>
      match st.sp.collection with
      | some existing =>
        if !(existing.target = s.target) then
          { sp := { st.sp with extras := pyAdd st.sp.extras s },
            warnings := st.warnings ++
              (if warn_duplicate then ["Ignoring additional collection signposts"] else []) }
        else { st with sp := { st.sp with collection := some s } }
      | none => { st with sp := { st.sp with collection := some s } }
    | .author => { st with sp := { st.sp with authors := pyAdd st.sp.authors s } }
    | .describedby => { st with sp := { st.sp with describedBy := pyAdd st.sp.describedBy s } }
    | .item => { st with sp := { st.sp with items := pyAdd st.sp.items s } }
    | .linkset => { st with sp := { st.sp with linksets := pyAdd st.sp.linksets s } }
    | .type => { st with sp := { st.sp with types := pyAdd st.sp.types s } }

/-- Body of `Signposting.__init__` after the argument check: normalize the
context by truthiness and run the classification loop. -/
def constructCore (context_url : Option AbsoluteURI) (signposts : List Signpost)
    (include_no_context warn_duplicate : Bool) : Signposting × List String :=
  let ctxu := if optTruthy context_url then context_url else none
  let st := signposts.foldl (classifyStep include_no_context warn_duplicate)
    { sp := Signposting.empty ctxu, warnings := [] }
  (st.sp, st.warnings)

/-- `Signposting.__init__`: raises `ValueError` when
`include_no_context=False` is combined with a falsy `context_url`;
`signposts=None` behaves like an empty iterable. -/
def Signposting.construct (context_url : Option AbsoluteURI)
    (signposts : Option (List Signpost))
    (include_no_context warn_duplicate : Bool) :
    Except String (Signposting × List String) :=
  if !include_no_context && !optTruthy context_url then
    .error "Cannot exclude signposts without context when not providing context_url; try include_no_context=True"
  else
    .ok (constructCore context_url (signposts.getD []) include_no_context warn_duplicate)

/-- `Signposting.__iter__`: citeAs, license, collection, authors,
describedBy, items, types, extras — in that order.  NOTE: faithfully to
the source, `linksets` is NOT yielded (the loop over `self.linksets` is
missing from `__iter__`), and `others` is excluded by design. -/
def Signposting.iterList (sp : Signposting) : List Signpost :=
  sp.citeAs.toList ++ sp.license.toList ++ sp.collection.toList ++
    sp.authors ++ sp.describedBy ++ sp.items ++ sp.types ++ sp.extras

/-- `Signposting.__len__`: `sum(1 for _ in self)`. -/
def Signposting.length (sp : Signposting) : Nat :=
  sp.iterList.length

/-- The full bag behind the `signposts` property before deduplication:
iteration followed by the other-context bucket. -/
def Signposting.viewList (sp : Signposting) : List Signpost :=
  sp.iterList ++ sp.others

/-- The `signposts` property: `frozenset(itertools.chain(self, self._others))`. -/
def Signposting.signpostsList (sp : Signposting) : List Signpost :=
  pyFrozenset sp.viewList

/-- `Signposting._signposts_with_explicit_context`: iteration with the
implicit context made explicit, then the other-context bucket, dropping
(with a warning, not modelled) contextless entries when this aggregate has
a context. -/
def Signposting.explicitList (sp : Signposting) : List Signpost :=
  sp.iterList.map (fun s =>
      if !optTruthy s.context && optTruthy sp.context_url then
        s.with_context sp.context_url
      else s)
    ++ sp.others.filter (fun o => !(!optTruthy o.context && optTruthy sp.context_url))

/-- `Signposting.for_context`. -/
def Signposting.for_context (sp : Signposting) (context_uri : Option AbsoluteURI) :
    Except String (Signposting × List String) :=
  let include_no_context := context_uri.isNone
  let our := if include_no_context then sp.signpostsList else sp.explicitList
  Signposting.construct context_uri (some our) include_no_context true

/-- `Signposting.__eq__`: `set(self) == set(o)` — only signposts of the
current context take part; `context_url` and the other-context bucket are
ignored. -/
def Signposting.spEq (a b : Signposting) : Bool :=
  coreSet a.iterList = coreSet b.iterList

/-- `Signposting.__hash__`: `hash(qualname)` XORed with the hash of each
signpost of the current context, in iteration order. -/
def Signposting.spHash (sp : Signposting) : Nat :=
  sp.iterList.foldl (fun h e => h ^^^ e.sigHash) (strHash "Signposting")

/-- `Signposting.__or__` (union merge, without the `TypeError` guard which
is enforced by typing here). -/
def Signposting.orMerge (a b : Signposting) : Except String (Signposting × List String) :=
  let newContext :=
    if optTruthy a.context_url then a.context_url
    else if optTruthy b.context_url then b.context_url
    else none
  let merged :=
    if optTruthy newContext then a.explicitList ++ b.explicitList
    else a.signpostsList ++ b.signpostsList
  Signposting.construct newContext (some merged) (!optTruthy newContext) false

/-- `Signposting.__add__` with a `Signposting` right operand: narrow the
right side to the left context when both contexts are explicit and differ,
otherwise filter its iteration by matching-or-absent context; the
additions are chained BEFORE the left signposts so they win the singular
slots. -/
def Signposting.addMerge (a other : Signposting) : Except String (Signposting × List String) :=
  let to_add : Except String (List Signpost) :=
    if optTruthy a.context_url && optTruthy other.context_url
        && !(other.context_url = a.context_url) then
      (other.for_context a.context_url).map (fun p => p.1.iterList)
    else
      .ok (other.iterList.filter (fun s =>
        s.context = a.context_url || !optTruthy s.context))
  match to_add with
  | .error e => .error e
  | .ok l =>
    Signposting.construct a.context_url (some (l ++ a.signpostsList)) true false

/-! ### Basic lemmas about the Python-set model -/

theorem core_rel (s : Signpost) : s.core.2.1 = s.rel := rfl

theorem core_ne_of_rel_ne {x y : Signpost} (h : x.rel ≠ y.rel) : x.core ≠ y.core := by
  intro hc
  exact h (by rw [← core_rel x, ← core_rel y, hc])

theorem core_target (s : Signpost) : s.core.2.2.1 = s.target := rfl

theorem core_ne_of_target_ne {x y : Signpost} (h : x.target ≠ y.target) : x.core ≠ y.core := by
  intro hc
  exact h (by rw [← core_target x, ← core_target y, hc])

theorem core_context (s : Signpost) : s.core.1 = s.context := rfl

theorem coreSet_append (l1 l2 : List Signpost) :
    coreSet (l1 ++ l2) = coreSet l1 ∪ coreSet l2 := by
  simp [coreSet, List.toFinset_append]

theorem mem_coreSet {x : Signpost} {l : List Signpost} :
    x.core ∈ coreSet l ↔ coreMem x l := by
  simp [coreSet, coreMem, List.mem_toFinset]

theorem coreMem_iff_exists {x : Signpost} {l : List Signpost} :
    coreMem x l ↔ ∃ t ∈ l, t.core = x.core := by
  constructor
  · intro h
    obtain ⟨t, ht, he⟩ := List.mem_map.mp h
    exact ⟨t, ht, he⟩
  · intro ⟨t, ht, he⟩
    exact List.mem_map.mpr ⟨t, ht, he⟩

theorem coreSet_pyAdd (l : List Signpost) (s : Signpost) :
    coreSet (pyAdd l s) = insert s.core (coreSet l) := by
  unfold pyAdd
  split
  · rename_i h
    obtain ⟨t, ht, he⟩ := List.any_eq_true.mp h
    have hm : s.core ∈ coreSet l := by
      rw [mem_coreSet, coreMem_iff_exists]
      exact ⟨t, ht, of_decide_eq_true he⟩
    rw [Finset.insert_eq_self.mpr hm]
  · rw [coreSet_append]
    have h1 : coreSet [s] = {s.core} := by simp [coreSet]
    rw [h1]
    ext a
    simp [Finset.mem_union, Finset.mem_insert, or_comm]

theorem pyAdd_subset (l : List Signpost) (s : Signpost) :
    ∀ a ∈ pyAdd l s, a ∈ l ∨ a = s := by
  intro a ha
  unfold pyAdd at ha
  split at ha
  · exact Or.inl ha
  · rcases List.mem_append.mp ha with h | h
    · exact Or.inl h
    · exact Or.inr (List.mem_singleton.mp h)

theorem coreMem_pyAdd_self (l : List Signpost) (s : Signpost) :
    coreMem s (pyAdd l s) := by
  rw [← mem_coreSet, coreSet_pyAdd]
  exact Finset.mem_insert_self _ _

theorem coreMem_pyAdd_mono (l : List Signpost) (s x : Signpost)
    (h : coreMem x l) : coreMem x (pyAdd l s) := by
  rw [← mem_coreSet, coreSet_pyAdd]
  exact Finset.mem_insert_of_mem (mem_coreSet.mpr h)

theorem foldl_pyAdd_coreSet (l : List Signpost) :
    ∀ acc, coreSet (l.foldl pyAdd acc) = coreSet acc ∪ coreSet l := by
  induction l with
  | nil => intro acc; simp [coreSet]
  | cons x xs ih =>
    intro acc
    rw [List.foldl_cons, ih, coreSet_pyAdd]
    have : coreSet (x :: xs) = insert x.core (coreSet xs) := by
      simp [coreSet]
    rw [this, Finset.insert_union, Finset.union_insert]

theorem pyFrozenset_coreSet (l : List Signpost) :
    coreSet (pyFrozenset l) = coreSet l := by
  rw [pyFrozenset, foldl_pyAdd_coreSet]
  simp [coreSet]

theorem foldl_pyAdd_subset (l : List Signpost) :
    ∀ acc, ∀ a ∈ l.foldl pyAdd acc, a ∈ acc ∨ a ∈ l := by
  induction l with
  | nil => intro acc a ha; exact Or.inl ha
  | cons x xs ih =>
    intro acc a ha
    rw [List.foldl_cons] at ha
    rcases ih _ a ha with h | h
    · rcases pyAdd_subset _ _ a h with h2 | h2
      · exact Or.inl h2
      · exact Or.inr (by simp [h2])
    · exact Or.inr (List.mem_cons_of_mem _ h)

theorem pyFrozenset_subset (l : List Signpost) :
    ∀ a ∈ pyFrozenset l, a ∈ l := by
  intro a ha
  rcases foldl_pyAdd_subset l [] a ha with h | h
  · cases h
  · exact h

theorem pyAdd_nodup (l : List Signpost) (s : Signpost)
    (h : (l.map Signpost.core).Nodup) : ((pyAdd l s).map Signpost.core).Nodup := by
  unfold pyAdd
  split
  · exact h
  · rename_i hna
    rw [List.map_append, List.nodup_append]
    refine ⟨h, by simp, ?_⟩
    intro a ha hb
    simp at hb
    obtain ⟨t, ht, he⟩ := List.mem_map.mp ha
    rw [hb] at he
    have : l.any (fun t => t.sigEq s) = true :=
      List.any_eq_true.mpr ⟨t, ht, decide_eq_true (by simpa [Signpost.sigEq] using he)⟩
    simp [this] at hna

/-! ### Lemmas about the classification loop -/

/-- The relations assigned to singular slots. -/
def isSingletonRel : LinkRel → Bool
  | .cite_as => true
  | .license => true
  | .collection => true
  | _ => false

theorem classifyStep_ctx (inc w : Bool) (st : BuildState) (s : Signpost) :
    (classifyStep inc w st s).sp.context_url = st.sp.context_url := by
  unfold classifyStep
  dsimp only
  repeat' split
  all_goals rfl

theorem foldl_classify_ctx (inc w : Bool) :
    ∀ (l : List Signpost) (st : BuildState),
      (l.foldl (classifyStep inc w) st).sp.context_url = st.sp.context_url := by
  intro l
  induction l with
  | nil => intro st; rfl
  | cons x xs ih =>
    intro st
    rw [List.foldl_cons, ih, classifyStep_ctx]

set_option maxHeartbeats 2000000 in
theorem classifyStep_subset (inc w : Bool) (st : BuildState) (s : Signpost) :
    ∀ e ∈ (classifyStep inc w st s).sp.viewList, e ∈ st.sp.viewList ∨ e = s := by
  intro e he
  unfold classifyStep at he
  dsimp only at he
  simp only [pyAdd] at he
  repeat' split at he
  all_goals
    simp only [Signposting.viewList, Signposting.iterList, List.mem_append,
      Option.toList_some, Option.toList_none, List.mem_singleton,
      List.not_mem_nil, List.mem_cons, or_false, false_or] at he ⊢
  all_goals tauto

theorem coreSet_singleton (s : Signpost) : coreSet [s] = {s.core} := by
  simp [coreSet]

theorem coreSet_nil : coreSet [] = ∅ := by
  simp [coreSet]

theorem singleton_union_eq_insert {α : Type} [DecidableEq α] (a : α) (X : Finset α) :
    {a} ∪ X = insert a X := by
  ext x
  simp [or_comm]

theorem union_singleton_eq_insert {α : Type} [DecidableEq α] (a : α) (X : Finset α) :
    X ∪ {a} = insert a X := by
  ext x
  simp [or_comm]

/-- The singular slots hold signposts of their own relation (an invariant
of the classification loop, needed because a replacement of an equal-target
duplicate consults the slot). -/
def slotRelOk (sp : Signposting) : Prop :=
  (∀ x, sp.citeAs = some x → x.rel = .cite_as) ∧
  (∀ x, sp.license = some x → x.rel = .license) ∧
  (∀ x, sp.collection = some x → x.rel = .collection)

set_option maxHeartbeats 2000000 in
theorem classifyStep_slotRelOk (inc w : Bool) (st : BuildState) (s : Signpost)
    (h : slotRelOk st.sp) : slotRelOk (classifyStep inc w st s).sp := by
  obtain ⟨h1, h2, h3⟩ := h
  unfold classifyStep
  dsimp only
  repeat' split
  all_goals exact ⟨by intro x hx; first | exact h1 x hx | (cases hx; assumption),
    by intro x hx; first | exact h2 x hx | (cases hx; assumption),
    by intro x hx; first | exact h3 x hx | (cases hx; assumption)⟩

set_option maxHeartbeats 2000000 in
theorem classifyStep_view (inc w : Bool) (st : BuildState) (s : Signpost)
    (hslot : slotRelOk st.sp)
    (hls : s.rel ≠ .linkset)
    (hcol : ∀ v ∈ st.sp.viewList, v.rel = s.rel → isSingletonRel s.rel = true →
      v.target = s.target → v.core = s.core) :
    coreSet (classifyStep inc w st s).sp.viewList
      = insert s.core (coreSet st.sp.viewList) := by
  obtain ⟨hc1, hc2, hc3⟩ := hslot
  unfold classifyStep
  dsimp only
  split
  · simp only [Signposting.viewList, Signposting.iterList, coreSet_append,
      coreSet_pyAdd, Finset.union_insert, Finset.insert_union]
  · cases hsrel : s.rel
    case linkset => exact absurd hsrel hls
    case author =>
      simp only [Signposting.viewList, Signposting.iterList, coreSet_append,
        coreSet_pyAdd, Finset.union_insert, Finset.insert_union]
    case describedby =>
      simp only [Signposting.viewList, Signposting.iterList, coreSet_append,
        coreSet_pyAdd, Finset.union_insert, Finset.insert_union]
    case item =>
      simp only [Signposting.viewList, Signposting.iterList, coreSet_append,
        coreSet_pyAdd, Finset.union_insert, Finset.insert_union]
    case type =>
      simp only [Signposting.viewList, Signposting.iterList, coreSet_append,
        coreSet_pyAdd, Finset.union_insert, Finset.insert_union]
    case cite_as =>
      cases hcite : st.sp.citeAs with
      | none =>
        simp only [hcite, Signposting.viewList, Signposting.iterList, coreSet_append,
          coreSet_singleton, coreSet_nil, Option.toList_some, Option.toList_none,
          List.nil_append, singleton_union_eq_insert, union_singleton_eq_insert, Finset.union_empty, Finset.union_insert,
          Finset.insert_union, Finset.empty_union]
      | some ex =>
        cases hd : decide (ex.target = s.target) with
        | true =>
          have hte : ex.target = s.target := of_decide_eq_true hd
          have hmem : ex ∈ st.sp.viewList := by
            simp [Signposting.viewList, Signposting.iterList, hcite]
          have hxcore : ex.core = s.core :=
            hcol ex hmem (by rw [hc1 ex hcite, hsrel]) (by rw [hsrel]; rfl) hte
          simp only [hd, Bool.not_true, Bool.false_eq_true]
          rw [if_neg not_false]
          simp only [hcite, Signposting.viewList, Signposting.iterList, coreSet_append,
            coreSet_singleton, Option.toList_some, singleton_union_eq_insert, union_singleton_eq_insert,
            Finset.union_insert, Finset.insert_union, hxcore, Finset.insert_idem]
        | false =>
          simp only [hd, Bool.not_false]
          rw [if_pos trivial]
          simp only [hcite, Signposting.viewList, Signposting.iterList, coreSet_append,
            coreSet_singleton, coreSet_pyAdd, Option.toList_some,
            singleton_union_eq_insert, union_singleton_eq_insert, Finset.union_empty, Finset.union_insert, Finset.insert_union]
    case license =>
      cases hlic : st.sp.license with
      | none =>
        simp only [hlic, Signposting.viewList, Signposting.iterList, coreSet_append,
          coreSet_singleton, coreSet_nil, Option.toList_some, Option.toList_none,
          List.nil_append, singleton_union_eq_insert, union_singleton_eq_insert, Finset.union_empty, Finset.union_insert,
          Finset.insert_union, Finset.empty_union]
      | some ex =>
        cases hd : decide (ex.target = s.target) with
        | true =>
          have hte : ex.target = s.target := of_decide_eq_true hd
          have hmem : ex ∈ st.sp.viewList := by
            simp [Signposting.viewList, Signposting.iterList, hlic]
          have hxcore : ex.core = s.core :=
            hcol ex hmem (by rw [hc2 ex hlic, hsrel]) (by rw [hsrel]; rfl) hte
          simp only [hd, Bool.not_true, Bool.false_eq_true]
          rw [if_neg not_false]
          simp only [hlic, Signposting.viewList, Signposting.iterList, coreSet_append,
            coreSet_singleton, Option.toList_some, singleton_union_eq_insert, union_singleton_eq_insert,
            Finset.union_insert, Finset.insert_union, hxcore, Finset.insert_idem]
        | false =>
          simp only [hd, Bool.not_false]
          rw [if_pos trivial]
          simp only [hlic, Signposting.viewList, Signposting.iterList, coreSet_append,
            coreSet_singleton, coreSet_pyAdd, Option.toList_some,
            singleton_union_eq_insert, union_singleton_eq_insert, Finset.union_empty, Finset.union_insert, Finset.insert_union]
    case collection =>
      cases hcol2 : st.sp.collection with
      | none =>
        simp only [hcol2, Signposting.viewList, Signposting.iterList, coreSet_append,
          coreSet_singleton, coreSet_nil, Option.toList_some, Option.toList_none,
          List.nil_append, singleton_union_eq_insert, union_singleton_eq_insert, Finset.union_empty, Finset.union_insert,
          Finset.insert_union, Finset.empty_union]
      | some ex =>
        cases hd : decide (ex.target = s.target) with
        | true =>
          have hte : ex.target = s.target := of_decide_eq_true hd
          have hmem : ex ∈ st.sp.viewList := by
            simp [Signposting.viewList, Signposting.iterList, hcol2]
          have hxcore : ex.core = s.core :=
            hcol ex hmem (by rw [hc3 ex hcol2, hsrel]) (by rw [hsrel]; rfl) hte
          simp only [hd, Bool.not_true, Bool.false_eq_true]
          rw [if_neg not_false]
          simp only [hcol2, Signposting.viewList, Signposting.iterList, coreSet_append,
            coreSet_singleton, Option.toList_some, singleton_union_eq_insert, union_singleton_eq_insert,
            Finset.union_insert, Finset.insert_union, hxcore, Finset.insert_idem]
        | false =>
          simp only [hd, Bool.not_false]
          rw [if_pos trivial]
          simp only [hcol2, Signposting.viewList, Signposting.iterList, coreSet_append,
            coreSet_singleton, coreSet_pyAdd, Option.toList_some,
            singleton_union_eq_insert, union_singleton_eq_insert, Finset.union_empty, Finset.union_insert, Finset.insert_union]

theorem foldl_classify_subset (inc w : Bool) :
    ∀ (l : List Signpost) (st : BuildState),
      ∀ e ∈ (l.foldl (classifyStep inc w) st).sp.viewList,
        e ∈ st.sp.viewList ∨ e ∈ l := by
  intro l
  induction l with
  | nil => intro st e he; exact Or.inl he
  | cons x xs ih =>
    intro st e he
    rw [List.foldl_cons] at he
    rcases ih (classifyStep inc w st x) e he with h | h
    · rcases classifyStep_subset inc w st x e h with h2 | h2
      · exact Or.inl h2
      · exact Or.inr (by simp [h2])
    · exact Or.inr (List.mem_cons_of_mem _ h)

theorem foldl_classify_slotRelOk (inc w : Bool) :
    ∀ (l : List Signpost) (st : BuildState), slotRelOk st.sp →
      slotRelOk (l.foldl (classifyStep inc w) st).sp := by
  intro l
  induction l with
  | nil => intro st h; exact h
  | cons x xs ih =>
    intro st h
    rw [List.foldl_cons]
    exact ih _ (classifyStep_slotRelOk inc w st x h)

theorem foldl_classify_view (inc w : Bool) :
    ∀ (l : List Signpost) (st : BuildState),
    slotRelOk st.sp →
    (∀ x ∈ l, x.rel ≠ .linkset) →
    (∀ v ∈ st.sp.viewList, ∀ y ∈ l, v.rel = y.rel → isSingletonRel y.rel = true →
      v.target = y.target → v.core = y.core) →
    (∀ x ∈ l, ∀ y ∈ l, x.rel = y.rel → isSingletonRel y.rel = true →
      x.target = y.target → x.core = y.core) →
    coreSet (l.foldl (classifyStep inc w) st).sp.viewList
      = coreSet st.sp.viewList ∪ coreSet l := by
  intro l
  induction l with
  | nil =>
    intro st _ _ _ _
    simp [coreSet]
  | cons x xs ih =>
    intro st hslot hls hcross hpair
    rw [List.foldl_cons]
    have hstep := classifyStep_view inc w st x hslot (hls x (by simp))
      (fun v hv hr hs ht => hcross v hv x (by simp) hr hs ht)
    have hslot1 := classifyStep_slotRelOk inc w st x hslot
    have hcross1 : ∀ v ∈ (classifyStep inc w st x).sp.viewList, ∀ y ∈ xs,
        v.rel = y.rel → isSingletonRel y.rel = true → v.target = y.target →
        v.core = y.core := by
      intro v hv y hy hr hs ht
      rcases classifyStep_subset inc w st x v hv with h | h
      · exact hcross v h y (by simp [hy]) hr hs ht
      · subst h
        exact hpair _ (by simp) y (by simp [hy]) hr hs ht
    have hih := ih (classifyStep inc w st x) hslot1
      (fun z hz => hls z (by simp [hz])) hcross1
      (fun a ha b hb => hpair a (by simp [ha]) b (by simp [hb]))
    rw [hih, hstep]
    have hx : coreSet (x :: xs) = insert x.core (coreSet xs) := by simp [coreSet]
    rw [hx, Finset.insert_union, Finset.union_insert]

theorem Signposting_empty_viewList (ctxu : Option AbsoluteURI) :
    (Signposting.empty ctxu).viewList = [] := rfl

theorem Signposting_empty_slotRelOk (ctxu : Option AbsoluteURI) :
    slotRelOk (Signposting.empty ctxu) :=
  ⟨fun _ h => Option.noConfusion h, fun _ h => Option.noConfusion h,
    fun _ h => Option.noConfusion h⟩

/-- Construction leaves the (normalized) context on the aggregate. -/
theorem constructCore_ctx (ctxu : Option AbsoluteURI) (l : List Signpost) (inc w : Bool) :
    (constructCore ctxu l inc w).1.context_url
      = (if optTruthy ctxu then ctxu else none) := by
  unfold constructCore
  dsimp only
  rw [foldl_classify_ctx]
  rfl

theorem constructCore_slotRelOk (ctxu : Option AbsoluteURI) (l : List Signpost)
    (inc w : Bool) : slotRelOk (constructCore ctxu l inc w).1 := by
  unfold constructCore
  dsimp only
  exact foldl_classify_slotRelOk inc w l _ (Signposting_empty_slotRelOk _)

/-- Every signpost held by a freshly constructed aggregate (slots, overflow
or other-context bucket) is one of the constructor inputs. -/
theorem constructCore_subset (ctxu : Option AbsoluteURI) (l : List Signpost)
    (inc w : Bool) : ∀ e ∈ (constructCore ctxu l inc w).1.viewList, e ∈ l := by
  unfold constructCore
  dsimp only
  intro e he
  rcases foldl_classify_subset inc w l _ e he with h | h
  · rw [Signposting_empty_viewList] at h
    cases h
  · exact h

/-- Under no-linkset and no-conflicting-singleton-duplicate conditions the
classification loop preserves the input signposts as a set: nothing is
lost between the inputs and the union of slots, overflow and the
other-context bucket. -/
theorem constructCore_view (ctxu : Option AbsoluteURI) (l : List Signpost) (inc w : Bool)
    (hls : ∀ x ∈ l, x.rel ≠ .linkset)
    (hpair : ∀ x ∈ l, ∀ y ∈ l, x.rel = y.rel → isSingletonRel y.rel = true →
      x.target = y.target → x.core = y.core) :
    coreSet (constructCore ctxu l inc w).1.viewList = coreSet l := by
  unfold constructCore
  dsimp only
  rw [foldl_classify_view inc w l _ (Signposting_empty_slotRelOk _) hls
    (by rw [Signposting_empty_viewList]; intro v hv; cases hv) hpair]
  rw [Signposting_empty_viewList, coreSet_nil, Finset.empty_union]

theorem classifyStep_cite_fill (inc w : Bool) (st : BuildState) (s : Signpost)
    (hno : isOtherB inc st.sp.context_url s = false) (hrel : s.rel = .cite_as)
    (hz : st.sp.citeAs = none) :
    (classifyStep inc w st s).sp = { st.sp with citeAs := some s }
    ∧ (classifyStep inc w st s).warnings = st.warnings := by
  unfold classifyStep
  dsimp only
  rw [hno, if_neg Bool.false_ne_true, hrel]
  dsimp only
  rw [hz]
  exact ⟨rfl, rfl⟩

theorem classifyStep_cite_dup (inc w : Bool) (st : BuildState) (s z : Signpost)
    (hno : isOtherB inc st.sp.context_url s = false) (hrel : s.rel = .cite_as)
    (hz : st.sp.citeAs = some z) (ht : ¬(z.target = s.target)) :
    (classifyStep inc w st s).sp = { st.sp with extras := pyAdd st.sp.extras s }
    ∧ (classifyStep inc w st s).warnings
        = st.warnings ++ (if w then ["Ignoring additional cite-as signposts"] else []) := by
  unfold classifyStep
  dsimp only
  rw [hno, if_neg Bool.false_ne_true, hrel]
  dsimp only
  cases hc2 : st.sp.citeAs with
  | none => rw [hc2] at hz; cases hz
  | some z2 =>
    rw [hc2] at hz
    injection hz with hzz
    subst hzz
    cases hd : decide (z2.target = s.target) with
    | true => exact absurd (of_decide_eq_true hd) ht
    | false =>
      simp only [hd, Bool.not_false]
      rw [if_pos trivial]
      exact ⟨rfl, rfl⟩

theorem classifyStep_cite_replace (inc w : Bool) (st : BuildState) (s z : Signpost)
    (hno : isOtherB inc st.sp.context_url s = false) (hrel : s.rel = .cite_as)
    (hz : st.sp.citeAs = some z) (ht : z.target = s.target) :
    (classifyStep inc w st s).sp = { st.sp with citeAs := some s }
    ∧ (classifyStep inc w st s).warnings = st.warnings := by
  unfold classifyStep
  dsimp only
  rw [hno, if_neg Bool.false_ne_true, hrel]
  dsimp only
  cases hc2 : st.sp.citeAs with
  | none => rw [hc2] at hz; cases hz
  | some z2 =>
    rw [hc2] at hz
    injection hz with hzz
    subst hzz
    cases hd : decide (z2.target = s.target) with
    | false => exact absurd ht (of_decide_eq_false hd)
    | true =>
      simp only [hd, Bool.not_true, Bool.false_eq_true]
      rw [if_neg not_false]
      exact ⟨rfl, rfl⟩

theorem classifyStep_lic_fill (inc w : Bool) (st : BuildState) (s : Signpost)
    (hno : isOtherB inc st.sp.context_url s = false) (hrel : s.rel = .license)
    (hz : st.sp.license = none) :
    (classifyStep inc w st s).sp = { st.sp with license := some s }
    ∧ (classifyStep inc w st s).warnings = st.warnings := by
  unfold classifyStep
  dsimp only
  rw [hno, if_neg Bool.false_ne_true, hrel]
  dsimp only
  rw [hz]
  exact ⟨rfl, rfl⟩

theorem classifyStep_lic_dup (inc w : Bool) (st : BuildState) (s z : Signpost)
    (hno : isOtherB inc st.sp.context_url s = false) (hrel : s.rel = .license)
    (hz : st.sp.license = some z) (ht : ¬(z.target = s.target)) :
    (classifyStep inc w st s).sp = { st.sp with extras := pyAdd st.sp.extras s }
    ∧ (classifyStep inc w st s).warnings
        = st.warnings ++ (if w then ["Ignoring additional license signposts"] else []) := by
  unfold classifyStep
  dsimp only
  rw [hno, if_neg Bool.false_ne_true, hrel]
  dsimp only
  cases hc2 : st.sp.license with
  | none => rw [hc2] at hz; cases hz
  | some z2 =>
    rw [hc2] at hz
    injection hz with hzz
    subst hzz
    cases hd : decide (z2.target = s.target) with
    | true => exact absurd (of_decide_eq_true hd) ht
    | false =>
      simp only [hd, Bool.not_false]
      rw [if_pos trivial]
      exact ⟨rfl, rfl⟩

theorem classifyStep_lic_replace (inc w : Bool) (st : BuildState) (s z : Signpost)
    (hno : isOtherB inc st.sp.context_url s = false) (hrel : s.rel = .license)
    (hz : st.sp.license = some z) (ht : z.target = s.target) :
    (classifyStep inc w st s).sp = { st.sp with license := some s }
    ∧ (classifyStep inc w st s).warnings = st.warnings := by
  unfold classifyStep
  dsimp only
  rw [hno, if_neg Bool.false_ne_true, hrel]
  dsimp only
  cases hc2 : st.sp.license with
  | none => rw [hc2] at hz; cases hz
  | some z2 =>
    rw [hc2] at hz
    injection hz with hzz
    subst hzz
    cases hd : decide (z2.target = s.target) with
    | false => exact absurd ht (of_decide_eq_false hd)
    | true =>
      simp only [hd, Bool.not_true, Bool.false_eq_true]
      rw [if_neg not_false]
      exact ⟨rfl, rfl⟩

theorem classifyStep_col_fill (inc w : Bool) (st : BuildState) (s : Signpost)
    (hno : isOtherB inc st.sp.context_url s = false) (hrel : s.rel = .collection)
    (hz : st.sp.collection = none) :
    (classifyStep inc w st s).sp = { st.sp with collection := some s }
    ∧ (classifyStep inc w st s).warnings = st.warnings := by
  unfold classifyStep
  dsimp only
  rw [hno, if_neg Bool.false_ne_true, hrel]
  dsimp only
  rw [hz]
  exact ⟨rfl, rfl⟩

theorem classifyStep_col_dup (inc w : Bool) (st : BuildState) (s z : Signpost)
    (hno : isOtherB inc st.sp.context_url s = false) (hrel : s.rel = .collection)
    (hz : st.sp.collection = some z) (ht : ¬(z.target = s.target)) :
    (classifyStep inc w st s).sp = { st.sp with extras := pyAdd st.sp.extras s }
    ∧ (classifyStep inc w st s).warnings
        = st.warnings ++ (if w then ["Ignoring additional collection signposts"] else []) := by
  unfold classifyStep
  dsimp only
  rw [hno, if_neg Bool.false_ne_true, hrel]
  dsimp only
  cases hc2 : st.sp.collection with
  | none => rw [hc2] at hz; cases hz
  | some z2 =>
    rw [hc2] at hz
    injection hz with hzz
    subst hzz
    cases hd : decide (z2.target = s.target) with
    | true => exact absurd (of_decide_eq_true hd) ht
    | false =>
      simp only [hd, Bool.not_false]
      rw [if_pos trivial]
      exact ⟨rfl, rfl⟩

theorem classifyStep_col_replace (inc w : Bool) (st : BuildState) (s z : Signpost)
    (hno : isOtherB inc st.sp.context_url s = false) (hrel : s.rel = .collection)
    (hz : st.sp.collection = some z) (ht : z.target = s.target) :
    (classifyStep inc w st s).sp = { st.sp with collection := some s }
    ∧ (classifyStep inc w st s).warnings = st.warnings := by
  unfold classifyStep
  dsimp only
  rw [hno, if_neg Bool.false_ne_true, hrel]
  dsimp only
  cases hc2 : st.sp.collection with
  | none => rw [hc2] at hz; cases hz
  | some z2 =>
    rw [hc2] at hz
    injection hz with hzz
    subst hzz
    cases hd : decide (z2.target = s.target) with
    | false => exact absurd ht (of_decide_eq_false hd)
    | true =>
      simp only [hd, Bool.not_true, Bool.false_eq_true]
      rw [if_neg not_false]
      exact ⟨rfl, rfl⟩

theorem classifyStep_other (inc w : Bool) (st : BuildState) (s : Signpost)
    (ho : isOtherB inc st.sp.context_url s = true) :
    (classifyStep inc w st s).sp.citeAs = st.sp.citeAs
    ∧ (classifyStep inc w st s).sp.license = st.sp.license
    ∧ (classifyStep inc w st s).sp.collection = st.sp.collection
    ∧ (classifyStep inc w st s).sp.extras = st.sp.extras
    ∧ (classifyStep inc w st s).sp.iterList = st.sp.iterList
    ∧ (classifyStep inc w st s).sp.others = pyAdd st.sp.others s
    ∧ (classifyStep inc w st s).warnings = st.warnings := by
  unfold classifyStep
  dsimp only
  rw [ho, if_pos rfl]
  exact ⟨rfl, rfl, rfl, rfl, rfl, rfl, rfl⟩

theorem classifyStep_author (inc w : Bool) (st : BuildState) (s : Signpost)
    (hno : isOtherB inc st.sp.context_url s = false) (hrel : s.rel = .author) :
    (classifyStep inc w st s).sp = { st.sp with authors := pyAdd st.sp.authors s }
    ∧ (classifyStep inc w st s).warnings = st.warnings := by
  unfold classifyStep
  dsimp only
  rw [hno, if_neg Bool.false_ne_true, hrel]
  exact ⟨rfl, rfl⟩

theorem classifyStep_describedby (inc w : Bool) (st : BuildState) (s : Signpost)
    (hno : isOtherB inc st.sp.context_url s = false) (hrel : s.rel = .describedby) :
    (classifyStep inc w st s).sp = { st.sp with describedBy := pyAdd st.sp.describedBy s }
    ∧ (classifyStep inc w st s).warnings = st.warnings := by
  unfold classifyStep
  dsimp only
  rw [hno, if_neg Bool.false_ne_true, hrel]
  exact ⟨rfl, rfl⟩

theorem classifyStep_item (inc w : Bool) (st : BuildState) (s : Signpost)
    (hno : isOtherB inc st.sp.context_url s = false) (hrel : s.rel = .item) :
    (classifyStep inc w st s).sp = { st.sp with items := pyAdd st.sp.items s }
    ∧ (classifyStep inc w st s).warnings = st.warnings := by
  unfold classifyStep
  dsimp only
  rw [hno, if_neg Bool.false_ne_true, hrel]
  exact ⟨rfl, rfl⟩

theorem classifyStep_linkset (inc w : Bool) (st : BuildState) (s : Signpost)
    (hno : isOtherB inc st.sp.context_url s = false) (hrel : s.rel = .linkset) :
    (classifyStep inc w st s).sp = { st.sp with linksets := pyAdd st.sp.linksets s }
    ∧ (classifyStep inc w st s).warnings = st.warnings := by
  unfold classifyStep
  dsimp only
  rw [hno, if_neg Bool.false_ne_true, hrel]
  exact ⟨rfl, rfl⟩

theorem classifyStep_type (inc w : Bool) (st : BuildState) (s : Signpost)
    (hno : isOtherB inc st.sp.context_url s = false) (hrel : s.rel = .type) :
    (classifyStep inc w st s).sp = { st.sp with types := pyAdd st.sp.types s }
    ∧ (classifyStep inc w st s).warnings = st.warnings := by
  unfold classifyStep
  dsimp only
  rw [hno, if_neg Bool.false_ne_true, hrel]
  exact ⟨rfl, rfl⟩

theorem classifyStep_extras_mono (inc w : Bool) (st : BuildState) (s x : Signpost)
    (h : coreMem x st.sp.extras) : coreMem x (classifyStep inc w st s).sp.extras := by
  unfold classifyStep
  dsimp only
  repeat' split
  all_goals first
    | exact h
    | exact coreMem_pyAdd_mono _ _ _ h

theorem classifyStep_others_mono (inc w : Bool) (st : BuildState) (s x : Signpost)
    (h : coreMem x st.sp.others) : coreMem x (classifyStep inc w st s).sp.others := by
  unfold classifyStep
  dsimp only
  repeat' split
  all_goals first
    | exact h
    | exact coreMem_pyAdd_mono _ _ _ h

theorem foldl_extras_mono (inc w : Bool) :
    ∀ (l : List Signpost) (st : BuildState) (x : Signpost),
      coreMem x st.sp.extras →
      coreMem x ((l.foldl (classifyStep inc w) st)).sp.extras := by
  intro l
  induction l with
  | nil => intro st x h; exact h
  | cons y ys ih =>
    intro st x h
    rw [List.foldl_cons]
    exact ih _ x (classifyStep_extras_mono inc w st y x h)

theorem foldl_others_mono (inc w : Bool) :
    ∀ (l : List Signpost) (st : BuildState) (x : Signpost),
      coreMem x st.sp.others →
      coreMem x ((l.foldl (classifyStep inc w) st)).sp.others := by
  intro l
  induction l with
  | nil => intro st x h; exact h
  | cons y ys ih =>
    intro st x h
    rw [List.foldl_cons]
    exact ih _ x (classifyStep_others_mono inc w st y x h)


/-- The `citeAs` slot is unchanged by a classified signpost of any other
relation. -/
theorem classifyStep_citeAs_nonCite (inc w : Bool) (st : BuildState) (s : Signpost)
    (hno : isOtherB inc st.sp.context_url s = false) (hrel : s.rel ≠ .cite_as) :
    (classifyStep inc w st s).sp.citeAs = st.sp.citeAs := by
  cases hsrel : s.rel with
  | cite_as => exact absurd hsrel hrel
  | author => rw [(classifyStep_author inc w st s hno hsrel).1]
  | describedby => rw [(classifyStep_describedby inc w st s hno hsrel).1]
  | item => rw [(classifyStep_item inc w st s hno hsrel).1]
  | linkset => rw [(classifyStep_linkset inc w st s hno hsrel).1]
  | type => rw [(classifyStep_type inc w st s hno hsrel).1]
  | license =>
    cases hl : st.sp.license with
    | none => rw [(classifyStep_lic_fill inc w st s hno hsrel hl).1]
    | some z =>
      cases hd : decide (z.target = s.target) with
      | true =>
        rw [(classifyStep_lic_replace inc w st s z hno hsrel hl (of_decide_eq_true hd)).1]
      | false =>
        rw [(classifyStep_lic_dup inc w st s z hno hsrel hl (of_decide_eq_false hd)).1]
  | collection =>
    cases hl : st.sp.collection with
    | none => rw [(classifyStep_col_fill inc w st s hno hsrel hl).1]
    | some z =>
      cases hd : decide (z.target = s.target) with
      | true =>
        rw [(classifyStep_col_replace inc w st s z hno hsrel hl (of_decide_eq_true hd)).1]
      | false =>
        rw [(classifyStep_col_dup inc w st s z hno hsrel hl (of_decide_eq_false hd)).1]

/-- Once the `citeAs` slot is filled its target never changes: equal-target
duplicates replace the slot signpost but keep the target, and differing
targets are relegated to the overflow. -/
theorem classifyStep_citeAs_target (inc w : Bool) (st : BuildState) (s z : Signpost)
    (hz : st.sp.citeAs = some z) :
    ∃ z2, (classifyStep inc w st s).sp.citeAs = some z2 ∧ z2.target = z.target := by
  cases ho : isOtherB inc st.sp.context_url s with
  | true =>
    obtain ⟨hc, _⟩ := classifyStep_other inc w st s ho
    exact ⟨z, by rw [hc, hz], rfl⟩
  | false =>
    cases hsrel : decide (s.rel = .cite_as) with
    | false =>
      refine ⟨z, ?_, rfl⟩
      rw [classifyStep_citeAs_nonCite inc w st s ho (of_decide_eq_false hsrel), hz]
    | true =>
      cases hd : decide (z.target = s.target) with
      | true =>
        obtain ⟨h1, _⟩ := classifyStep_cite_replace inc w st s z ho
          (of_decide_eq_true hsrel) hz (of_decide_eq_true hd)
        refine ⟨s, ?_, (of_decide_eq_true hd).symm⟩
        rw [h1]
      | false =>
        obtain ⟨h1, _⟩ := classifyStep_cite_dup inc w st s z ho
          (of_decide_eq_true hsrel) hz (of_decide_eq_false hd)
        refine ⟨z, ?_, rfl⟩
        rw [h1, hz]

/-- When every conflicting classified cite-as signpost is a duplicate up to
`Signpost` equality, the slot keeps its `_eq_attribs` tuple. -/
theorem classifyStep_citeAs_core (inc w : Bool) (st : BuildState) (s z : Signpost)
    (hz : st.sp.citeAs = some z)
    (hy : isOtherB inc st.sp.context_url s = false → s.rel = .cite_as →
      s.target = z.target → s.core = z.core) :
    ∃ z2, (classifyStep inc w st s).sp.citeAs = some z2 ∧ z2.core = z.core := by
  cases ho : isOtherB inc st.sp.context_url s with
  | true =>
    obtain ⟨hc, _⟩ := classifyStep_other inc w st s ho
    exact ⟨z, by rw [hc, hz], rfl⟩
  | false =>
    cases hsrel : decide (s.rel = .cite_as) with
    | false =>
      refine ⟨z, ?_, rfl⟩
      rw [classifyStep_citeAs_nonCite inc w st s ho (of_decide_eq_false hsrel), hz]
    | true =>
      cases hd : decide (z.target = s.target) with
      | true =>
        obtain ⟨h1, _⟩ := classifyStep_cite_replace inc w st s z ho
          (of_decide_eq_true hsrel) hz (of_decide_eq_true hd)
        refine ⟨s, ?_, hy ho (of_decide_eq_true hsrel) (of_decide_eq_true hd).symm⟩
        rw [h1]
      | false =>
        obtain ⟨h1, _⟩ := classifyStep_cite_dup inc w st s z ho
          (of_decide_eq_true hsrel) hz (of_decide_eq_false hd)
        refine ⟨z, ?_, rfl⟩
        rw [h1, hz]

theorem foldl_citeAs_target (inc w : Bool) :
    ∀ (l : List Signpost) (st : BuildState) (z : Signpost),
      st.sp.citeAs = some z →
      ∃ z2, ((l.foldl (classifyStep inc w) st)).sp.citeAs = some z2
        ∧ z2.target = z.target := by
  intro l
  induction l with
  | nil => intro st z hz; exact ⟨z, hz, rfl⟩
  | cons y ys ih =>
    intro st z hz
    rw [List.foldl_cons]
    obtain ⟨z1, hz1, ht1⟩ := classifyStep_citeAs_target inc w st y z hz
    obtain ⟨z2, hz2, ht2⟩ := ih _ z1 hz1
    exact ⟨z2, hz2, by rw [ht2, ht1]⟩

theorem foldl_citeAs_core (inc w : Bool) :
    ∀ (l : List Signpost) (st : BuildState) (z : Signpost),
      st.sp.citeAs = some z →
      (∀ y ∈ l, isOtherB inc st.sp.context_url y = false → y.rel = .cite_as →
        y.target = z.target → y.core = z.core) →
      ∃ z2, ((l.foldl (classifyStep inc w) st)).sp.citeAs = some z2
        ∧ z2.core = z.core := by
  intro l
  induction l with
  | nil => intro st z hz _; exact ⟨z, hz, rfl⟩
  | cons y ys ih =>
    intro st z hz hy
    rw [List.foldl_cons]
    obtain ⟨z1, hz1, hc1⟩ := classifyStep_citeAs_core inc w st y z hz
      (hy y (by simp))
    have hctx : (classifyStep inc w st y).sp.context_url = st.sp.context_url :=
      classifyStep_ctx inc w st y
    have htz : z1.target = z.target := by
      have := congrArg (fun c => c.2.2.1) hc1
      simpa [Signpost.core] using this
    obtain ⟨z2, hz2, hc2⟩ := ih _ z1 hz1 (by
      intro u hu hob hur hut
      rw [hctx] at hob
      have := hy u (by simp [hu]) hob hur (by rw [hut, htz])
      rw [this, hc1])
    exact ⟨z2, hz2, by rw [hc2, hc1]⟩

/-! ### Claim theorems -/

/-- C4 (counterexample): the claim asserts that `LinkRelation` construction
is case-insensitive, e.g. that "CITE-AS" succeeds; on the code the Enum
value lookup is an exact string match, so "CITE-AS" fails. -/
theorem C4_counterexample : (LinkRel.construct "CITE-AS").isOk = false := by rfl

/-- C4 (amended): constructing a `LinkRelation` from a string `x` succeeds
exactly when `x` is exactly one of the eight lowercase relation values
(case-sensitively, so "CITE-AS" fails), and fails with `ValueError` for
every other string, including IANA-registered relations such as
"stylesheet" and "canonical". -/
theorem C4_relation_closure : ∀ x : String, (LinkRel.construct x).isOk = true ↔
    (x = "author" ∨ x = "collection" ∨ x = "describedby" ∨ x = "item"
      ∨ x = "cite-as" ∨ x = "type" ∨ x = "license" ∨ x = "linkset") := by
  intro x
  unfold LinkRel.construct
  repeat' split
  all_goals simp_all [Except.isOk, Except.toBool]

/-- C4 (witness): the lowercase value "cite-as" is accepted and the
registered-but-foreign relation "stylesheet" is rejected, via
`C4_relation_closure`. -/
theorem C4_witness : (LinkRel.construct "cite-as").isOk = true
    ∧ ¬((LinkRel.construct "stylesheet").isOk = true) :=
  ⟨(C4_relation_closure "cite-as").mpr (by tauto),
    fun h => by have := (C4_relation_closure "stylesheet").mp h; simp at this⟩

/-- C8: `AbsoluteURI` construction returns an existing instance unchanged
without re-validation (idempotence, so `AbsoluteURI(AbsoluteURI(u))` equals
`AbsoluteURI(u)` for every valid absolute URI string `u`); any other input
is resolved against the base (empty string when absent) and construction
fails with `ValueError` exactly when the resolved result is not a valid
absolute URI. -/
theorem C8_absolute_uri_idempotent :
    (∀ (a : AbsoluteURI) (base : Option String),
      AbsoluteURI.construct (.uri a) base = .ok a)
    ∧ (∀ u : String, isAbsoluteURI u = true →
        AbsoluteURI.construct (.str u) none = .ok ⟨u⟩
        ∧ AbsoluteURI.construct (.uri ⟨u⟩) none = .ok ⟨u⟩)
    ∧ (∀ (v : String) (base : Option String),
        AbsoluteURI.construct (.str v) base =
          (if isAbsoluteURI (urljoin (base.getD "") v)
           then .ok ⟨urljoin (base.getD "") v⟩
           else .error "is not a valid absolute URI")) := by
  refine ⟨fun a base => rfl, fun u hu => ⟨?_, rfl⟩, fun v base => rfl⟩
  have hj : urljoin ((none : Option String).getD "") u = u := by
    show urljoin "" u = u
    rw [urljoin, if_pos rfl]
  unfold AbsoluteURI.construct
  dsimp only
  rw [hj, if_pos hu]

/-- C8 (witness): the concrete valid absolute URI "http://example.com/"
round-trips through construction, by `C8_absolute_uri_idempotent`. -/
theorem C8_witness :
    AbsoluteURI.construct (.str "http://example.com/") none = .ok ⟨"http://example.com/"⟩
    ∧ AbsoluteURI.construct (.uri ⟨"http://example.com/"⟩) none = .ok ⟨"http://example.com/"⟩ :=
  C8_absolute_uri_idempotent.2.1 "http://example.com/" (by decide)

/-- C9: constructing a `Signposting` with `include_no_context=False` and no
(or falsy) `context_url` always fails with `ValueError` and produces no
aggregate, while any non-empty `context_url` is accepted with the same
flag combination. -/
theorem C9_invalid_argument :
    (∀ (sps : Option (List Signpost)) (w : Bool),
      Signposting.construct none sps false w =
        .error "Cannot exclude signposts without context when not providing context_url; try include_no_context=True")
    ∧ (∀ (c : AbsoluteURI) (sps : Option (List Signpost)) (w : Bool), ¬(c.uri = "") →
        Signposting.construct (some c) sps false w =
          .ok (constructCore (some c) (sps.getD []) false w)) := by
  constructor
  · intro sps w
    rfl
  · intro c sps w hc
    unfold Signposting.construct
    rw [if_neg]
    simp [optTruthy, hc]

/-- C9 (witness): with the concrete context "http://example.com/page1" the
flag combination is accepted, and with no context it errors, via
`C9_invalid_argument`. -/
theorem C9_witness :
    Signposting.construct (some ⟨"http://example.com/page1"⟩) (some []) false true =
      .ok (constructCore (some ⟨"http://example.com/page1"⟩) [] false true)
    ∧ Signposting.construct none (some []) false true =
      .error "Cannot exclude signposts without context when not providing context_url; try include_no_context=True" :=
  ⟨C9_invalid_argument.2 ⟨"http://example.com/page1"⟩ (some []) true (by decide),
    C9_invalid_argument.1 (some []) true⟩

/-- C1 (code bug evaluation): a `linkset` signpost in the aggregate context
is classified into the `linksets` slot, yet `len(signposting)` is 0 and
both iteration and the full `signposts` view omit it, because `__iter__`
never yields `self.linksets`.  The claim (backed by the spec and by the
repository test `testIterComplete`) expects the linksets slot to be
counted. -/
theorem C1_linkset_not_counted :
    (constructCore (some ⟨"http://example.com/page"⟩)
      [⟨.linkset, ⟨"http://example.com/linkset.json"⟩, none, ∅, none, none⟩]
      true true).1.length = 0
    ∧ (constructCore (some ⟨"http://example.com/page"⟩)
      [⟨.linkset, ⟨"http://example.com/linkset.json"⟩, none, ∅, none, none⟩]
      true true).1.linksets =
        [⟨.linkset, ⟨"http://example.com/linkset.json"⟩, none, ∅, none, none⟩]
    ∧ (constructCore (some ⟨"http://example.com/page"⟩)
      [⟨.linkset, ⟨"http://example.com/linkset.json"⟩, none, ∅, none, none⟩]
      true true).1.signpostsList = [] := by
  refine ⟨by decide, by decide, by decide⟩

theorem natXor_left_comm (a b c : Nat) : a ^^^ (b ^^^ c) = b ^^^ (a ^^^ c) := by
  rw [← Nat.xor_assoc, Nat.xor_comm a b, Nat.xor_assoc]

/-- C7: `Signpost` equality is decided exactly by the tuple
(context, rel, target, type, profiles); the raw link provenance is
excluded; equal signposts have equal hashes; the member order of the
profiles set affects neither equality nor hash; and two signposts
identical except for swapped target and context values never compare
equal, though they do share a hash under the XOR combination. -/
theorem C7_signpost_eq_hash :
    (∀ a b : Signpost, a.sigEq b = true ↔
      (a.context = b.context ∧ a.rel = b.rel ∧ a.target = b.target
        ∧ a.type = b.type ∧ a.profiles = b.profiles))
    ∧ (∀ (s : Signpost) (l1 l2 : Option Link),
        Signpost.sigEq { s with link := l1 } { s with link := l2 } = true)
    ∧ (∀ a b : Signpost, a.sigEq b = true → a.sigHash = b.sigHash)
    ∧ (∀ (r : LinkRel) (t : AbsoluteURI) (mt : Option MediaType)
        (ctx : Option AbsoluteURI) (lk : Option Link) (ps1 ps2 : List AbsoluteURI),
        List.Perm ps1 ps2 →
        (Signpost.ofProfiles r t mt ps1 ctx lk).sigEq
          (Signpost.ofProfiles r t mt ps2 ctx lk) = true
        ∧ (Signpost.ofProfiles r t mt ps1 ctx lk).sigHash
          = (Signpost.ofProfiles r t mt ps2 ctx lk).sigHash)
    ∧ (∀ (s : Signpost) (u v : AbsoluteURI), ¬(u = v) → s.context = some u →
        s.target = v →
        s.sigEq { s with context := some v, target := u } = false
        ∧ s.sigHash = Signpost.sigHash { s with context := some v, target := u }) := by
  refine ⟨?_, ?_, ?_, ?_, ?_⟩
  · intro a b
    simp [Signpost.sigEq, Signpost.core, Prod.ext_iff]
  · intro s l1 l2
    simp [Signpost.sigEq, Signpost.core]
  · intro a b h
    simp only [Signpost.sigEq, Signpost.core, Prod.mk.injEq, decide_eq_true_eq] at h
    obtain ⟨h1, h2, h3, h4, h5⟩ := h
    simp [Signpost.sigHash, h1, h2, h3, h4, h5]
  · intro r t mt ctx lk ps1 ps2 hperm
    have hfs : ps1.toFinset = ps2.toFinset := List.toFinset_eq_of_perm ps1 ps2 hperm
    have heq : Signpost.ofProfiles r t mt ps1 ctx lk
        = Signpost.ofProfiles r t mt ps2 ctx lk := by
      simp [Signpost.ofProfiles, hfs]
    rw [heq]
    exact ⟨by simp [Signpost.sigEq], rfl⟩
  · intro s u v huv hc ht
    constructor
    · apply decide_eq_false
      intro hcontra
      rw [Signpost.core, Signpost.core] at hcontra
      have := congrArg (fun c => c.1) hcontra
      simp [hc] at this
      exact huv this
    · simp only [Signpost.sigHash, hc, ht, optUriHash]
      simp only [Nat.xor_assoc]
      rw [natXor_left_comm (uriHash u) (relHash s.rel)]
      rw [natXor_left_comm (uriHash u) (uriHash v)]
      rw [natXor_left_comm (uriHash v) (relHash s.rel)]

/-- C7 (witness): concrete signposts differing only in link provenance are
equal with equal hashes; profile order is irrelevant; and the
target/context swap of a concrete signpost is unequal but shares its hash
(via `C7_signpost_eq_hash`). -/
theorem C7_witness :
    Signpost.sigEq
      { rel := .cite_as, target := ⟨"http://example.com/pid/1"⟩, type := none,
        profiles := ∅, context := none, link := some ⟨1⟩ }
      { rel := .cite_as, target := ⟨"http://example.com/pid/1"⟩, type := none,
        profiles := ∅, context := none, link := some ⟨2⟩ } = true
    ∧ (Signpost.ofProfiles .cite_as ⟨"http://example.com/pid/1"⟩ none
        [⟨"http://example.org/profileA"⟩, ⟨"http://example.org/profileB"⟩] none none).sigHash
      = (Signpost.ofProfiles .cite_as ⟨"http://example.com/pid/1"⟩ none
        [⟨"http://example.org/profileB"⟩, ⟨"http://example.org/profileA"⟩] none none).sigHash
    ∧ Signpost.sigEq
        { rel := .cite_as, target := ⟨"http://b.example/"⟩, type := none,
          profiles := ∅, context := some ⟨"http://a.example/"⟩, link := none }
        { rel := .cite_as, target := ⟨"http://a.example/"⟩, type := none,
          profiles := ∅, context := some ⟨"http://b.example/"⟩, link := none } = false := by
  refine ⟨?_, ?_, ?_⟩
  · exact C7_signpost_eq_hash.2.1
      { rel := .cite_as, target := ⟨"http://example.com/pid/1"⟩, type := none,
        profiles := ∅, context := none, link := none } (some ⟨1⟩) (some ⟨2⟩)
  · exact (C7_signpost_eq_hash.2.2.2.1 .cite_as ⟨"http://example.com/pid/1"⟩ none none none
      [⟨"http://example.org/profileA"⟩, ⟨"http://example.org/profileB"⟩]
      [⟨"http://example.org/profileB"⟩, ⟨"http://example.org/profileA"⟩]
      (List.Perm.swap _ _ _)).2
  · exact (C7_signpost_eq_hash.2.2.2.2
      { rel := .cite_as, target := ⟨"http://b.example/"⟩, type := none,
        profiles := ∅, context := some ⟨"http://a.example/"⟩, link := none }
      ⟨"http://a.example/"⟩ ⟨"http://b.example/"⟩ (by decide) rfl rfl).1

/-- C3 (counterexample): the claim says a later singleton signpost whose
target equals the slot target is silently dropped leaving the slot
unchanged; on the code `self.citeAs = s` runs in that case, so the LATER
signpost takes the slot (observable here through its media type) and the
earlier one is discarded. -/
theorem C3_counterexample :
    (constructCore (some ⟨"http://example.com/page1"⟩)
      [⟨.cite_as, ⟨"http://example.com/pid/1"⟩, none, ∅, none, none⟩,
       ⟨.cite_as, ⟨"http://example.com/pid/1"⟩, some ⟨"text/html"⟩, ∅, none, none⟩]
      true true).1.citeAs
      = some ⟨.cite_as, ⟨"http://example.com/pid/1"⟩, some ⟨"text/html"⟩, ∅, none, none⟩
    ∧ Signpost.sigEq
        ⟨.cite_as, ⟨"http://example.com/pid/1"⟩, some ⟨"text/html"⟩, ∅, none, none⟩
        ⟨.cite_as, ⟨"http://example.com/pid/1"⟩, none, ∅, none, none⟩ = false := by
  exact ⟨by decide, by decide⟩

/-- C3 (amended): during construction, for each singleton relation
(cite-as, license, collection) and any signpost classified to the current
context: the first matching signpost fills the empty slot; a later
signpost with a different target leaves the slot unchanged, emits a
duplicate warning (when warnings are enabled) and is added to overflow; a
later signpost whose target equals the slot target silently REPLACES the
slot signpost (the earlier one is discarded), with no warning and no
overflow entry.  The concrete two-duplicate scenario keeps the first
cite-as, warns once, and keeps the second reachable via the full
signposts view. -/
theorem C3_singleton_semantics :
    (∀ (inc w : Bool) (st : BuildState) (s : Signpost),
      isOtherB inc st.sp.context_url s = false → s.rel = .cite_as →
      (st.sp.citeAs = none →
        (classifyStep inc w st s).sp = { st.sp with citeAs := some s }
        ∧ (classifyStep inc w st s).warnings = st.warnings)
      ∧ (∀ z, st.sp.citeAs = some z → ¬(z.target = s.target) →
        (classifyStep inc w st s).sp = { st.sp with extras := pyAdd st.sp.extras s }
        ∧ (classifyStep inc w st s).warnings
          = st.warnings ++ (if w then ["Ignoring additional cite-as signposts"] else []))
      ∧ (∀ z, st.sp.citeAs = some z → z.target = s.target →
        (classifyStep inc w st s).sp = { st.sp with citeAs := some s }
        ∧ (classifyStep inc w st s).warnings = st.warnings))
    ∧ (∀ (inc w : Bool) (st : BuildState) (s : Signpost),
      isOtherB inc st.sp.context_url s = false → s.rel = .license →
      (st.sp.license = none →
        (classifyStep inc w st s).sp = { st.sp with license := some s }
        ∧ (classifyStep inc w st s).warnings = st.warnings)
      ∧ (∀ z, st.sp.license = some z → ¬(z.target = s.target) →
        (classifyStep inc w st s).sp = { st.sp with extras := pyAdd st.sp.extras s }
        ∧ (classifyStep inc w st s).warnings
          = st.warnings ++ (if w then ["Ignoring additional license signposts"] else []))
      ∧ (∀ z, st.sp.license = some z → z.target = s.target →
        (classifyStep inc w st s).sp = { st.sp with license := some s }
        ∧ (classifyStep inc w st s).warnings = st.warnings))
    ∧ (∀ (inc w : Bool) (st : BuildState) (s : Signpost),
      isOtherB inc st.sp.context_url s = false → s.rel = .collection →
      (st.sp.collection = none →
        (classifyStep inc w st s).sp = { st.sp with collection := some s }
        ∧ (classifyStep inc w st s).warnings = st.warnings)
      ∧ (∀ z, st.sp.collection = some z → ¬(z.target = s.target) →
        (classifyStep inc w st s).sp = { st.sp with extras := pyAdd st.sp.extras s }
        ∧ (classifyStep inc w st s).warnings
          = st.warnings ++ (if w then ["Ignoring additional collection signposts"] else []))
      ∧ (∀ z, st.sp.collection = some z → z.target = s.target →
        (classifyStep inc w st s).sp = { st.sp with collection := some s }
        ∧ (classifyStep inc w st s).warnings = st.warnings))
    ∧ (∀ (c : AbsoluteURI) (a b : Signpost), ¬(c.uri = "") →
        a.rel = .cite_as → b.rel = .cite_as →
        (a.context = none ∨ a.context = some c) →
        (b.context = none ∨ b.context = some c) →
        ¬(a.target = b.target) →
        (constructCore (some c) [a, b] true true).1.citeAs = some a
        ∧ coreMem b (constructCore (some c) [a, b] true true).1.extras
        ∧ coreMem b (constructCore (some c) [a, b] true true).1.signpostsList
        ∧ (constructCore (some c) [a, b] true true).2
          = ["Ignoring additional cite-as signposts"]) := by
  refine ⟨?_, ?_, ?_, ?_⟩
  · intro inc w st s hno hrel
    exact ⟨fun hz => classifyStep_cite_fill inc w st s hno hrel hz,
      fun z hz ht => classifyStep_cite_dup inc w st s z hno hrel hz ht,
      fun z hz ht => classifyStep_cite_replace inc w st s z hno hrel hz ht⟩
  · intro inc w st s hno hrel
    exact ⟨fun hz => classifyStep_lic_fill inc w st s hno hrel hz,
      fun z hz ht => classifyStep_lic_dup inc w st s z hno hrel hz ht,
      fun z hz ht => classifyStep_lic_replace inc w st s z hno hrel hz ht⟩
  · intro inc w st s hno hrel
    exact ⟨fun hz => classifyStep_col_fill inc w st s hno hrel hz,
      fun z hz ht => classifyStep_col_dup inc w st s z hno hrel hz ht,
      fun z hz ht => classifyStep_col_replace inc w st s z hno hrel hz ht⟩
  · intro c a b hc hra hrb hactx hbctx htgt
    have hctruthy : optTruthy (some c) = true := by simp [optTruthy, hc]
    have hfold : constructCore (some c) [a, b] true true
        = (((classifyStep true true (classifyStep true true
              { sp := Signposting.empty (some c), warnings := [] } a) b)).sp,
           ((classifyStep true true (classifyStep true true
              { sp := Signposting.empty (some c), warnings := [] } a) b)).warnings) := by
      unfold constructCore
      rw [if_pos hctruthy]
      rfl
    set st0 : BuildState := { sp := Signposting.empty (some c), warnings := [] } with hst0
    have hoa : isOtherB true st0.sp.context_url a = false := by
      rcases hactx with h | h <;>
        simp [isOtherB, effContext, optTruthy, h, hc, hst0, Signposting.empty]
    obtain ⟨h1sp, h1w⟩ := classifyStep_cite_fill true true st0 a hoa hra rfl
    set st1 : BuildState := classifyStep true true st0 a with hst1
    have hctx1 : st1.sp.context_url = some c := by rw [h1sp]; rfl
    have hcite1 : st1.sp.citeAs = some a := by rw [h1sp]
    have hob : isOtherB true st1.sp.context_url b = false := by
      rw [hctx1]
      rcases hbctx with h | h <;>
        simp [isOtherB, effContext, optTruthy, h, hc]
    obtain ⟨h2sp, h2w⟩ := classifyStep_cite_dup true true st1 b a hob hrb hcite1 htgt
    have hex1 : st1.sp.extras = [] := by rw [h1sp]; rfl
    rw [hfold]
    refine ⟨?_, ?_, ?_, ?_⟩
    · rw [h2sp]
      show st1.sp.citeAs = some a
      exact hcite1
    · rw [h2sp]
      show coreMem b (pyAdd st1.sp.extras b)
      exact coreMem_pyAdd_self _ _
    · rw [Signposting.signpostsList, ← mem_coreSet, pyFrozenset_coreSet, mem_coreSet,
        coreMem_iff_exists]
      refine ⟨b, ?_, rfl⟩
      rw [h2sp]
      simp [Signposting.viewList, Signposting.iterList, hex1, pyAdd]
    · rw [h2w, h1w]
      rfl

/-- C3 (witness): two concrete cite-as signposts with different targets:
first wins the slot, one duplicate warning is emitted, via
`C3_singleton_semantics`. -/
theorem C3_witness :
    (constructCore (some ⟨"http://example.com/page1"⟩)
      [⟨.cite_as, ⟨"http://example.com/pid/1"⟩, none, ∅, none, none⟩,
       ⟨.cite_as, ⟨"http://example.com/pid/2"⟩, none, ∅, none, none⟩] true true).1.citeAs
      = some ⟨.cite_as, ⟨"http://example.com/pid/1"⟩, none, ∅, none, none⟩
    ∧ (constructCore (some ⟨"http://example.com/page1"⟩)
      [⟨.cite_as, ⟨"http://example.com/pid/1"⟩, none, ∅, none, none⟩,
       ⟨.cite_as, ⟨"http://example.com/pid/2"⟩, none, ∅, none, none⟩] true true).2
      = ["Ignoring additional cite-as signposts"] := by
  have h := C3_singleton_semantics.2.2.2 ⟨"http://example.com/page1"⟩
    ⟨.cite_as, ⟨"http://example.com/pid/1"⟩, none, ∅, none, none⟩
    ⟨.cite_as, ⟨"http://example.com/pid/2"⟩, none, ∅, none, none⟩
    (by decide) rfl rfl (Or.inl rfl) (Or.inl rfl) (by decide)
  exact ⟨h.1, h.2.2.2⟩

theorem foldl_pyAdd_append_exists :
    ∀ (l acc : List Signpost), ∃ t, l.foldl pyAdd acc = acc ++ t := by
  intro l
  induction l with
  | nil => intro acc; exact ⟨[], by simp⟩
  | cons x xs ih =>
    intro acc
    rw [List.foldl_cons]
    have hp : pyAdd acc x = acc ∨ pyAdd acc x = acc ++ [x] := by
      unfold pyAdd
      split
      · exact Or.inl rfl
      · exact Or.inr rfl
    rcases hp with hp | hp
    · rw [hp]
      exact ih acc
    · rw [hp]
      obtain ⟨t, ht⟩ := ih (acc ++ [x])
      exact ⟨[x] ++ t, by rw [ht, List.append_assoc]⟩

/-- The `signposts` frozenset view of an aggregate with a filled `citeAs`
slot starts with that slot signpost. -/
theorem signpostsList_head (sp : Signposting) (x : Signpost)
    (hx : sp.citeAs = some x) : ∃ t, sp.signpostsList = x :: t := by
  unfold Signposting.signpostsList pyFrozenset
  have hv : sp.viewList = x :: (sp.license.toList ++ sp.collection.toList
      ++ sp.authors ++ sp.describedBy ++ sp.items ++ sp.types ++ sp.extras
      ++ sp.others) := by
    simp [Signposting.viewList, Signposting.iterList, hx]
  rw [hv, List.foldl_cons]
  have h0 : pyAdd [] x = [x] := by simp [pyAdd]
  rw [h0]
  exact foldl_pyAdd_append_exists _ [x]

theorem coreMem_iterList_of_extras (sp : Signposting) (x : Signpost)
    (h : coreMem x sp.extras) : coreMem x sp.iterList := by
  obtain ⟨t, ht, he⟩ := coreMem_iff_exists.mp h
  exact coreMem_iff_exists.mpr ⟨t, by simp [Signposting.iterList, ht], he⟩

theorem coreMem_viewList_of_iterList (sp : Signposting) (x : Signpost)
    (h : coreMem x sp.iterList) : coreMem x sp.viewList := by
  obtain ⟨t, ht, he⟩ := coreMem_iff_exists.mp h
  exact coreMem_iff_exists.mpr ⟨t, by simp [Signposting.viewList, ht], he⟩

theorem coreMem_viewList_of_others (sp : Signposting) (x : Signpost)
    (h : coreMem x sp.others) : coreMem x sp.viewList := by
  obtain ⟨t, ht, he⟩ := coreMem_iff_exists.mp h
  exact coreMem_iff_exists.mpr ⟨t, by simp [Signposting.viewList, ht], he⟩

theorem coreMem_signpostsList_of_viewList (sp : Signposting) (x : Signpost)
    (h : coreMem x sp.viewList) : coreMem x sp.signpostsList := by
  rw [← mem_coreSet] at h ⊢
  rw [Signposting.signpostsList, pyFrozenset_coreSet]
  exact h

/-- C5 (counterexample): with both aggregates context-free (`None` is a
value of "same context as A") and B's citeAs anchored to an explicit
context, the override-add filter drops B's citeAs, so `(A+B).citeAs`
keeps A's target instead of B's. -/
theorem C5_counterexample :
    ((constructCore none [⟨.cite_as, ⟨"http://example.com/pid/1"⟩, none, ∅, none, none⟩]
        true true).1.citeAs
      = some ⟨.cite_as, ⟨"http://example.com/pid/1"⟩, none, ∅, none, none⟩)
    ∧ ((constructCore none [⟨.cite_as, ⟨"http://example.com/pid/2"⟩, none, ∅,
        some ⟨"http://example.com/doc2"⟩, none⟩] true true).1.citeAs
      = some ⟨.cite_as, ⟨"http://example.com/pid/2"⟩, none, ∅,
        some ⟨"http://example.com/doc2"⟩, none⟩)
    ∧ ((constructCore none [⟨.cite_as, ⟨"http://example.com/pid/1"⟩, none, ∅, none, none⟩]
        true true).1.context_url
      = (constructCore none [⟨.cite_as, ⟨"http://example.com/pid/2"⟩, none, ∅,
        some ⟨"http://example.com/doc2"⟩, none⟩] true true).1.context_url)
    ∧ (((constructCore none [⟨.cite_as, ⟨"http://example.com/pid/1"⟩, none, ∅, none, none⟩]
          true true).1.addMerge
        (constructCore none [⟨.cite_as, ⟨"http://example.com/pid/2"⟩, none, ∅,
          some ⟨"http://example.com/doc2"⟩, none⟩] true true).1).toOption.map
        (fun p => p.1.citeAs.map (fun s => s.target))
      = some (some ⟨"http://example.com/pid/1"⟩)) := by
  exact ⟨by decide, by decide, by decide, by decide⟩

/-- C5 (amended): for aggregates A and B sharing the same explicit
context c, with A's citeAs at target X and B's citeAs at target Y ≠ X
(each slot signpost carrying the shared or implicit context), the
override-add A+B keeps A's context, fills citeAs with target Y (the
right-hand operand is chained first, so it wins the singular slot), and
the displaced X stays reachable in the overflow, in iteration and in the
full signposts view. -/
theorem C5_override_add :
    ∀ (a b : Signposting) (c : AbsoluteURI) (x y : Signpost),
      ¬(c.uri = "") →
      a.context_url = some c → b.context_url = some c →
      a.citeAs = some x → b.citeAs = some y →
      x.rel = .cite_as → y.rel = .cite_as →
      (x.context = none ∨ x.context = some c) →
      (y.context = none ∨ y.context = some c) →
      ¬(x.target = y.target) →
      ∃ r, a.addMerge b = .ok r
        ∧ r.1.context_url = some c
        ∧ (∃ w2, r.1.citeAs = some w2 ∧ w2.target = y.target)
        ∧ coreMem x r.1.extras
        ∧ coreMem x r.1.iterList
        ∧ coreMem x r.1.signpostsList := by
  intro a b c x y hc hac hbc hax hby hxr hyr hxctx hyctx hxy
  have hctruthy : optTruthy (some c) = true := by simp [optTruthy, hc]
  have hguard : (optTruthy a.context_url && optTruthy b.context_url
      && !(b.context_url = a.context_url)) = false := by
    simp [hac, hbc]
  have haddm : a.addMerge b = Signposting.construct a.context_url
      (some ((b.iterList.filter
          (fun s => s.context = a.context_url || !optTruthy s.context))
        ++ a.signpostsList)) true false := by
    unfold Signposting.addMerge
    dsimp only
    rw [hguard, if_neg Bool.false_ne_true]
  have hconstr : Signposting.construct a.context_url
      (some ((b.iterList.filter
          (fun s => s.context = a.context_url || !optTruthy s.context))
        ++ a.signpostsList)) true false
      = .ok (constructCore a.context_url
          ((b.iterList.filter
            (fun s => s.context = a.context_url || !optTruthy s.context))
          ++ a.signpostsList) true false) := rfl
  have hmain : (∃ w2, (constructCore a.context_url
        ((b.iterList.filter
          (fun s => decide (s.context = a.context_url) || !optTruthy s.context))
        ++ a.signpostsList) true false).1.citeAs = some w2 ∧ w2.target = y.target)
      ∧ coreMem x (constructCore a.context_url
        ((b.iterList.filter
          (fun s => decide (s.context = a.context_url) || !optTruthy s.context))
        ++ a.signpostsList) true false).1.extras := by
    have hIb : b.iterList = y :: (b.license.toList ++ b.collection.toList
        ++ b.authors ++ b.describedBy ++ b.items ++ b.types ++ b.extras) := by
      simp [Signposting.iterList, hby]
    obtain ⟨tailA, htailA⟩ := signpostsList_head a x hax
    set tailB := (b.license.toList ++ b.collection.toList
        ++ b.authors ++ b.describedBy ++ b.items ++ b.types ++ b.extras).filter
        (fun s => decide (s.context = a.context_url) || !optTruthy s.context) with htailB
    have hfY : (decide (y.context = a.context_url) || !optTruthy y.context) = true := by
      rcases hyctx with h | h <;> simp [h, hac, optTruthy]
    have hL : (b.iterList.filter
          (fun s => decide (s.context = a.context_url) || !optTruthy s.context))
        ++ a.signpostsList = y :: (tailB ++ x :: tailA) := by
      rw [hIb, htailA, htailB]
      simp only [List.filter_cons, hfY, if_true]
      rfl
    have hfold : (constructCore a.context_url
        ((b.iterList.filter
          (fun s => decide (s.context = a.context_url) || !optTruthy s.context))
        ++ a.signpostsList) true false).1
        = (((y :: (tailB ++ x :: tailA)).foldl (classifyStep true false)
            { sp := Signposting.empty (some c), warnings := [] })).sp := by
      rw [hL, hac]
      unfold constructCore
      rw [if_pos hctruthy]
    rw [hfold, List.foldl_cons]
    set st0 : BuildState := { sp := Signposting.empty (some c), warnings := [] } with hst0
    have hoy : isOtherB true st0.sp.context_url y = false := by
      rcases hyctx with h | h <;>
        simp [isOtherB, effContext, optTruthy, h, hc, hst0, Signposting.empty]
    obtain ⟨h4sp, _⟩ := classifyStep_cite_fill true false st0 y hoy hyr rfl
    set st1 : BuildState := classifyStep true false st0 y with hst1
    have hctx1 : st1.sp.context_url = some c := by rw [h4sp]; rfl
    have hcite1 : st1.sp.citeAs = some y := by rw [h4sp]
    rw [List.foldl_append]
    set stm : BuildState := tailB.foldl (classifyStep true false) st1 with hstm
    have hctxm : stm.sp.context_url = some c := by
      rw [hstm, foldl_classify_ctx, hctx1]
    obtain ⟨z1, hz1, ht1⟩ := foldl_citeAs_target true false tailB st1 y hcite1
    rw [← hstm] at hz1
    have hox : isOtherB true stm.sp.context_url x = false := by
      rw [hctxm]
      rcases hxctx with h | h <;> simp [isOtherB, effContext, optTruthy, h, hc]
    have hne : ¬(z1.target = x.target) := by
      rw [ht1]
      intro h
      exact hxy h.symm
    rw [List.foldl_cons]
    obtain ⟨h5sp, _⟩ := classifyStep_cite_dup true false stm x z1 hox hxr hz1 hne
    set stx : BuildState := classifyStep true false stm x with hstx
    have hcx : coreMem x stx.sp.extras := by
      rw [h5sp]
      exact coreMem_pyAdd_self _ _
    have hcitex : stx.sp.citeAs = some z1 := by
      rw [h5sp]
      exact hz1
    have hfinx : coreMem x (tailA.foldl (classifyStep true false) stx).sp.extras :=
      foldl_extras_mono true false tailA stx x hcx
    obtain ⟨z2, hz2, ht2⟩ := foldl_citeAs_target true false tailA stx z1 hcitex
    exact ⟨⟨z2, hz2, by rw [ht2, ht1]⟩, hfinx⟩
  refine ⟨_, haddm.trans hconstr,
    by rw [constructCore_ctx, hac, if_pos hctruthy],
    hmain.1, hmain.2,
    coreMem_iterList_of_extras _ _ hmain.2,
    coreMem_signpostsList_of_viewList _ _
      (coreMem_viewList_of_iterList _ _ (coreMem_iterList_of_extras _ _ hmain.2))⟩

/-- C5 (witness): the override-add of two concrete single-cite-as
aggregates sharing context "http://example.com/page1", via
`C5_override_add`. -/
theorem C5_witness :
    ∃ r, ((constructCore (some ⟨"http://example.com/page1"⟩)
        [⟨.cite_as, ⟨"http://example.com/pid/1"⟩, none, ∅, none, none⟩] true true).1).addMerge
      ((constructCore (some ⟨"http://example.com/page1"⟩)
        [⟨.cite_as, ⟨"http://example.com/pid/2"⟩, none, ∅, none, none⟩] true true).1) = .ok r
      ∧ r.1.context_url = some ⟨"http://example.com/page1"⟩
      ∧ (∃ w2, r.1.citeAs = some w2
          ∧ w2.target = Signpost.target ⟨.cite_as, ⟨"http://example.com/pid/2"⟩, none, ∅, none, none⟩)
      ∧ coreMem ⟨.cite_as, ⟨"http://example.com/pid/1"⟩, none, ∅, none, none⟩ r.1.extras
      ∧ coreMem ⟨.cite_as, ⟨"http://example.com/pid/1"⟩, none, ∅, none, none⟩ r.1.iterList
      ∧ coreMem ⟨.cite_as, ⟨"http://example.com/pid/1"⟩, none, ∅, none, none⟩ r.1.signpostsList :=
  C5_override_add
    (constructCore (some ⟨"http://example.com/page1"⟩)
      [⟨.cite_as, ⟨"http://example.com/pid/1"⟩, none, ∅, none, none⟩] true true).1
    (constructCore (some ⟨"http://example.com/page1"⟩)
      [⟨.cite_as, ⟨"http://example.com/pid/2"⟩, none, ∅, none, none⟩] true true).1
    ⟨"http://example.com/page1"⟩
    ⟨.cite_as, ⟨"http://example.com/pid/1"⟩, none, ∅, none, none⟩
    ⟨.cite_as, ⟨"http://example.com/pid/2"⟩, none, ∅, none, none⟩
    (by decide) (by decide) (by decide) (by decide) (by decide)
    rfl rfl (Or.inl rfl) (Or.inl rfl) (by decide)

/-- Invariants of the classification buckets: each bucket holds only its
own relation, overflow holds only singular relations whose targets differ
from the matching filled slot, and every bucket is duplicate-free under
`Signpost` equality. -/
structure BucketInv (sp : Signposting) : Prop where
  cite_rel : ∀ x, sp.citeAs = some x → x.rel = .cite_as
  lic_rel : ∀ x, sp.license = some x → x.rel = .license
  col_rel : ∀ x, sp.collection = some x → x.rel = .collection
  authors_rel : ∀ x ∈ sp.authors, x.rel = .author
  desc_rel : ∀ x ∈ sp.describedBy, x.rel = .describedby
  items_rel : ∀ x ∈ sp.items, x.rel = .item
  types_rel : ∀ x ∈ sp.types, x.rel = .type
  extras_single : ∀ x ∈ sp.extras, isSingletonRel x.rel = true
  extras_cite : ∀ x ∈ sp.extras, x.rel = .cite_as →
    ∃ z, sp.citeAs = some z ∧ ¬(x.target = z.target)
  extras_lic : ∀ x ∈ sp.extras, x.rel = .license →
    ∃ z, sp.license = some z ∧ ¬(x.target = z.target)
  extras_col : ∀ x ∈ sp.extras, x.rel = .collection →
    ∃ z, sp.collection = some z ∧ ¬(x.target = z.target)
  authors_nd : (sp.authors.map Signpost.core).Nodup
  desc_nd : (sp.describedBy.map Signpost.core).Nodup
  items_nd : (sp.items.map Signpost.core).Nodup
  types_nd : (sp.types.map Signpost.core).Nodup
  extras_nd : (sp.extras.map Signpost.core).Nodup

theorem classifyStep_other_record (inc w : Bool) (st : BuildState) (s : Signpost)
    (ho : isOtherB inc st.sp.context_url s = true) :
    ∃ oc, (classifyStep inc w st s).sp
      = { st.sp with others := pyAdd st.sp.others s, other_contexts := oc } := by
  unfold classifyStep
  dsimp only
  rw [ho, if_pos rfl]
  exact ⟨_, rfl⟩

theorem classifyStep_BucketInv (inc w : Bool) (st : BuildState) (s : Signpost)
    (h : BucketInv st.sp) : BucketInv (classifyStep inc w st s).sp := by
  cases ho : isOtherB inc st.sp.context_url s with
  | true =>
    obtain ⟨oc, hrec⟩ := classifyStep_other_record inc w st s ho
    rw [hrec]
    exact ⟨h.cite_rel, h.lic_rel, h.col_rel, h.authors_rel, h.desc_rel,
      h.items_rel, h.types_rel, h.extras_single, h.extras_cite, h.extras_lic,
      h.extras_col, h.authors_nd, h.desc_nd, h.items_nd, h.types_nd, h.extras_nd⟩
  | false =>
    cases hsrel : s.rel with
    | author =>
      rw [(classifyStep_author inc w st s ho hsrel).1]
      refine ⟨h.cite_rel, h.lic_rel, h.col_rel, ?_, h.desc_rel, h.items_rel,
        h.types_rel, h.extras_single, h.extras_cite, h.extras_lic, h.extras_col,
        pyAdd_nodup _ _ h.authors_nd, h.desc_nd, h.items_nd, h.types_nd, h.extras_nd⟩
      intro x hx
      rcases pyAdd_subset _ _ x hx with h2 | h2
      · exact h.authors_rel x h2
      · rw [h2, hsrel]
    | describedby =>
      rw [(classifyStep_describedby inc w st s ho hsrel).1]
      refine ⟨h.cite_rel, h.lic_rel, h.col_rel, h.authors_rel, ?_, h.items_rel,
        h.types_rel, h.extras_single, h.extras_cite, h.extras_lic, h.extras_col,
        h.authors_nd, pyAdd_nodup _ _ h.desc_nd, h.items_nd, h.types_nd, h.extras_nd⟩
      intro x hx
      rcases pyAdd_subset _ _ x hx with h2 | h2
      · exact h.desc_rel x h2
      · rw [h2, hsrel]
    | item =>
      rw [(classifyStep_item inc w st s ho hsrel).1]
      refine ⟨h.cite_rel, h.lic_rel, h.col_rel, h.authors_rel, h.desc_rel, ?_,
        h.types_rel, h.extras_single, h.extras_cite, h.extras_lic, h.extras_col,
        h.authors_nd, h.desc_nd, pyAdd_nodup _ _ h.items_nd, h.types_nd, h.extras_nd⟩
      intro x hx
      rcases pyAdd_subset _ _ x hx with h2 | h2
      · exact h.items_rel x h2
      · rw [h2, hsrel]
    | linkset =>
      rw [(classifyStep_linkset inc w st s ho hsrel).1]
      exact ⟨h.cite_rel, h.lic_rel, h.col_rel, h.authors_rel, h.desc_rel,
        h.items_rel, h.types_rel, h.extras_single, h.extras_cite, h.extras_lic,
        h.extras_col, h.authors_nd, h.desc_nd, h.items_nd, h.types_nd, h.extras_nd⟩
    | type =>
      rw [(classifyStep_type inc w st s ho hsrel).1]
      refine ⟨h.cite_rel, h.lic_rel, h.col_rel, h.authors_rel, h.desc_rel,
        h.items_rel, ?_, h.extras_single, h.extras_cite, h.extras_lic, h.extras_col,
        h.authors_nd, h.desc_nd, h.items_nd, pyAdd_nodup _ _ h.types_nd, h.extras_nd⟩
      intro x hx
      rcases pyAdd_subset _ _ x hx with h2 | h2
      · exact h.types_rel x h2
      · rw [h2, hsrel]
    | cite_as =>
      cases hz : st.sp.citeAs with
      | none =>
        rw [(classifyStep_cite_fill inc w st s ho hsrel hz).1]
        refine ⟨?_, h.lic_rel, h.col_rel, h.authors_rel, h.desc_rel, h.items_rel,
          h.types_rel, h.extras_single, ?_, h.extras_lic, h.extras_col,
          h.authors_nd, h.desc_nd, h.items_nd, h.types_nd, h.extras_nd⟩
        · intro x hx
          injection hx with hx2
          rw [← hx2, hsrel]
        · intro x hx hr
          obtain ⟨z, hz2, _⟩ := h.extras_cite x hx hr
          rw [hz] at hz2
          cases hz2
      | some z =>
        cases hd : decide (z.target = s.target) with
        | true =>
          rw [(classifyStep_cite_replace inc w st s z ho hsrel hz (of_decide_eq_true hd)).1]
          refine ⟨?_, h.lic_rel, h.col_rel, h.authors_rel, h.desc_rel, h.items_rel,
            h.types_rel, h.extras_single, ?_, h.extras_lic, h.extras_col,
            h.authors_nd, h.desc_nd, h.items_nd, h.types_nd, h.extras_nd⟩
          · intro x hx
            injection hx with hx2
            rw [← hx2, hsrel]
          · intro x hx hr
            obtain ⟨z0, hz0, hne⟩ := h.extras_cite x hx hr
            rw [hz] at hz0
            injection hz0 with hz0e
            refine ⟨s, rfl, ?_⟩
            rw [← of_decide_eq_true hd, hz0e]
            exact hne
        | false =>
          rw [(classifyStep_cite_dup inc w st s z ho hsrel hz (of_decide_eq_false hd)).1]
          refine ⟨h.cite_rel, h.lic_rel, h.col_rel, h.authors_rel, h.desc_rel,
            h.items_rel, h.types_rel, ?_, ?_, ?_, ?_,
            h.authors_nd, h.desc_nd, h.items_nd, h.types_nd,
            pyAdd_nodup _ _ h.extras_nd⟩
          · intro x hx
            rcases pyAdd_subset _ _ x hx with h2 | h2
            · exact h.extras_single x h2
            · rw [h2, hsrel]
              rfl
          · intro x hx hr
            rcases pyAdd_subset _ _ x hx with h2 | h2
            · exact h.extras_cite x h2 hr
            · refine ⟨z, hz, ?_⟩
              rw [h2]
              intro hcontra
              exact (of_decide_eq_false hd) hcontra.symm
          · intro x hx hr
            rcases pyAdd_subset _ _ x hx with h2 | h2
            · exact h.extras_lic x h2 hr
            · rw [h2] at hr
              rw [hsrel] at hr
              cases hr
          · intro x hx hr
            rcases pyAdd_subset _ _ x hx with h2 | h2
            · exact h.extras_col x h2 hr
            · rw [h2] at hr
              rw [hsrel] at hr
              cases hr
    | license =>
      cases hz : st.sp.license with
      | none =>
        rw [(classifyStep_lic_fill inc w st s ho hsrel hz).1]
        refine ⟨h.cite_rel, ?_, h.col_rel, h.authors_rel, h.desc_rel, h.items_rel,
          h.types_rel, h.extras_single, h.extras_cite, ?_, h.extras_col,
          h.authors_nd, h.desc_nd, h.items_nd, h.types_nd, h.extras_nd⟩
        · intro x hx
          injection hx with hx2
          rw [← hx2, hsrel]
        · intro x hx hr
          obtain ⟨z, hz2, _⟩ := h.extras_lic x hx hr
          rw [hz] at hz2
          cases hz2
      | some z =>
        cases hd : decide (z.target = s.target) with
        | true =>
          rw [(classifyStep_lic_replace inc w st s z ho hsrel hz (of_decide_eq_true hd)).1]
          refine ⟨h.cite_rel, ?_, h.col_rel, h.authors_rel, h.desc_rel, h.items_rel,
            h.types_rel, h.extras_single, h.extras_cite, ?_, h.extras_col,
            h.authors_nd, h.desc_nd, h.items_nd, h.types_nd, h.extras_nd⟩
          · intro x hx
            injection hx with hx2
            rw [← hx2, hsrel]
          · intro x hx hr
            obtain ⟨z0, hz0, hne⟩ := h.extras_lic x hx hr
            rw [hz] at hz0
            injection hz0 with hz0e
            refine ⟨s, rfl, ?_⟩
            rw [← of_decide_eq_true hd, hz0e]
            exact hne
        | false =>
          rw [(classifyStep_lic_dup inc w st s z ho hsrel hz (of_decide_eq_false hd)).1]
          refine ⟨h.cite_rel, h.lic_rel, h.col_rel, h.authors_rel, h.desc_rel,
            h.items_rel, h.types_rel, ?_, ?_, ?_, ?_,
            h.authors_nd, h.desc_nd, h.items_nd, h.types_nd,
            pyAdd_nodup _ _ h.extras_nd⟩
          · intro x hx
            rcases pyAdd_subset _ _ x hx with h2 | h2
            · exact h.extras_single x h2
            · rw [h2, hsrel]
              rfl
          · intro x hx hr
            rcases pyAdd_subset _ _ x hx with h2 | h2
            · exact h.extras_cite x h2 hr
            · rw [h2] at hr
              rw [hsrel] at hr
              cases hr
          · intro x hx hr
            rcases pyAdd_subset _ _ x hx with h2 | h2
            · exact h.extras_lic x h2 hr
            · refine ⟨z, hz, ?_⟩
              rw [h2]
              intro hcontra
              exact (of_decide_eq_false hd) hcontra.symm
          · intro x hx hr
            rcases pyAdd_subset _ _ x hx with h2 | h2
            · exact h.extras_col x h2 hr
            · rw [h2] at hr
              rw [hsrel] at hr
              cases hr
    | collection =>
      cases hz : st.sp.collection with
      | none =>
        rw [(classifyStep_col_fill inc w st s ho hsrel hz).1]
        refine ⟨h.cite_rel, h.lic_rel, ?_, h.authors_rel, h.desc_rel, h.items_rel,
          h.types_rel, h.extras_single, h.extras_cite, h.extras_lic, ?_,
          h.authors_nd, h.desc_nd, h.items_nd, h.types_nd, h.extras_nd⟩
        · intro x hx
          injection hx with hx2
          rw [← hx2, hsrel]
        · intro x hx hr
          obtain ⟨z, hz2, _⟩ := h.extras_col x hx hr
          rw [hz] at hz2
          cases hz2
      | some z =>
        cases hd : decide (z.target = s.target) with
        | true =>
          rw [(classifyStep_col_replace inc w st s z ho hsrel hz (of_decide_eq_true hd)).1]
          refine ⟨h.cite_rel, h.lic_rel, ?_, h.authors_rel, h.desc_rel, h.items_rel,
            h.types_rel, h.extras_single, h.extras_cite, h.extras_lic, ?_,
            h.authors_nd, h.desc_nd, h.items_nd, h.types_nd, h.extras_nd⟩
          · intro x hx
            injection hx with hx2
            rw [← hx2, hsrel]
          · intro x hx hr
            obtain ⟨z0, hz0, hne⟩ := h.extras_col x hx hr
            rw [hz] at hz0
            injection hz0 with hz0e
            refine ⟨s, rfl, ?_⟩
            rw [← of_decide_eq_true hd, hz0e]
            exact hne
        | false =>
          rw [(classifyStep_col_dup inc w st s z ho hsrel hz (of_decide_eq_false hd)).1]
          refine ⟨h.cite_rel, h.lic_rel, h.col_rel, h.authors_rel, h.desc_rel,
            h.items_rel, h.types_rel, ?_, ?_, ?_, ?_,
            h.authors_nd, h.desc_nd, h.items_nd, h.types_nd,
            pyAdd_nodup _ _ h.extras_nd⟩
          · intro x hx
            rcases pyAdd_subset _ _ x hx with h2 | h2
            · exact h.extras_single x h2
            · rw [h2, hsrel]
              rfl
          · intro x hx hr
            rcases pyAdd_subset _ _ x hx with h2 | h2
            · exact h.extras_cite x h2 hr
            · rw [h2] at hr
              rw [hsrel] at hr
              cases hr
          · intro x hx hr
            rcases pyAdd_subset _ _ x hx with h2 | h2
            · exact h.extras_lic x h2 hr
            · rw [h2] at hr
              rw [hsrel] at hr
              cases hr
          · intro x hx hr
            rcases pyAdd_subset _ _ x hx with h2 | h2
            · exact h.extras_col x h2 hr
            · refine ⟨z, hz, ?_⟩
              rw [h2]
              intro hcontra
              exact (of_decide_eq_false hd) hcontra.symm

theorem foldl_classify_BucketInv (inc w : Bool) (l : List Signpost) (st : BuildState)
    (h : BucketInv st.sp) : BucketInv (l.foldl (classifyStep inc w) st).sp := by
  induction l generalizing st with
  | nil => exact h
  | cons x xs ih =>
    rw [List.foldl_cons]
    exact ih _ (classifyStep_BucketInv inc w st x h)

theorem Signposting_empty_BucketInv (c : Option AbsoluteURI) :
    BucketInv (Signposting.empty c) := by
  refine ⟨?_, ?_, ?_, ?_, ?_, ?_, ?_, ?_, ?_, ?_, ?_, ?_, ?_, ?_, ?_, ?_⟩
  all_goals first
    | exact fun x h => Option.noConfusion h
    | exact fun x h => absurd h (List.not_mem_nil x)
    | exact fun x h _ => absurd h (List.not_mem_nil x)
    | exact List.nodup_nil

theorem constructCore_BucketInv (c : Option AbsoluteURI) (l : List Signpost)
    (inc w : Bool) : BucketInv (constructCore c l inc w).1 := by
  unfold constructCore
  exact foldl_classify_BucketInv inc w l _ (Signposting_empty_BucketInv _)

theorem nodup_core_append (l1 l2 : List Signpost)
    (h1 : (l1.map Signpost.core).Nodup) (h2 : (l2.map Signpost.core).Nodup)
    (hd : ∀ x ∈ l1, ∀ y ∈ l2, ¬(x.core = y.core)) :
    (((l1 ++ l2).map Signpost.core)).Nodup := by
  rw [List.map_append, List.nodup_append]
  refine ⟨h1, h2, ?_⟩
  intro a ha hb
  obtain ⟨u, hu, hue⟩ := List.mem_map.mp ha
  obtain ⟨v, hv, hve⟩ := List.mem_map.mp hb
  exact hd u hu v hv (by rw [hue, hve])

theorem nodup_core_option (o : Option Signpost) :
    ((o.toList.map Signpost.core)).Nodup := by
  cases o with
  | none => exact List.nodup_nil
  | some z => simp

theorem mem_option_toList {o : Option Signpost} {x : Signpost}
    (h : x ∈ o.toList) : o = some x := by
  cases o with
  | none => cases h
  | some z =>
    simp only [Option.toList, List.mem_singleton] at h
    rw [h]


theorem singletonRel_cases {r : LinkRel} (h : isSingletonRel r = true) :
    r = .cite_as ∨ r = .license ∨ r = .collection := by
  cases r with
  | cite_as => exact Or.inl rfl
  | license => exact Or.inr (Or.inl rfl)
  | collection => exact Or.inr (Or.inr rfl)
  | author => exact absurd h (by decide)
  | describedby => exact absurd h (by decide)
  | item => exact absurd h (by decide)
  | linkset => exact absurd h (by decide)
  | type => exact absurd h (by decide)


theorem BucketInv_iter_nodup (sp : Signposting) (h : BucketInv sp) :
    ((sp.iterList.map Signpost.core)).Nodup := by
  have n7 : (((sp.types ++ sp.extras).map Signpost.core)).Nodup := by
    refine nodup_core_append _ _ h.types_nd h.extras_nd ?_
    intro x hx y hy
    apply core_ne_of_rel_ne
    intro hc
    have hs := h.extras_single y hy
    rw [← hc, h.types_rel x hx] at hs
    exact absurd hs (by decide)
  have hmem7 : ∀ y ∈ sp.types ++ sp.extras, y.rel = LinkRel.type ∨ y ∈ sp.extras := by
    intro y hy
    rcases List.mem_append.mp hy with h2 | h2
    · exact Or.inl (h.types_rel y h2)
    · exact Or.inr h2
  have n6 : (((sp.items ++ (sp.types ++ sp.extras)).map Signpost.core)).Nodup := by
    refine nodup_core_append _ _ h.items_nd n7 ?_
    intro x hx y hy
    apply core_ne_of_rel_ne
    intro hc
    rw [h.items_rel x hx] at hc
    rcases hmem7 y hy with h2 | h2
    · rw [h2] at hc
      cases hc
    · rcases singletonRel_cases (h.extras_single y h2) with h3 | h3 | h3 <;>
        rw [h3] at hc <;> cases hc
  have hmem6 : ∀ y ∈ sp.items ++ (sp.types ++ sp.extras),
      y.rel = LinkRel.item ∨ y.rel = LinkRel.type ∨ y ∈ sp.extras := by
    intro y hy
    rcases List.mem_append.mp hy with h2 | h2
    · exact Or.inl (h.items_rel y h2)
    · rcases hmem7 y h2 with h3 | h3
      · exact Or.inr (Or.inl h3)
      · exact Or.inr (Or.inr h3)
  have n5 : (((sp.describedBy ++ (sp.items ++ (sp.types ++ sp.extras))).map
      Signpost.core)).Nodup := by
    refine nodup_core_append _ _ h.desc_nd n6 ?_
    intro x hx y hy
    apply core_ne_of_rel_ne
    intro hc
    rw [h.desc_rel x hx] at hc
    rcases hmem6 y hy with h2 | h2 | h2
    · rw [h2] at hc
      cases hc
    · rw [h2] at hc
      cases hc
    · rcases singletonRel_cases (h.extras_single y h2) with h3 | h3 | h3 <;>
        rw [h3] at hc <;> cases hc
  have hmem5 : ∀ y ∈ sp.describedBy ++ (sp.items ++ (sp.types ++ sp.extras)),
      y.rel = LinkRel.describedby ∨ y.rel = LinkRel.item ∨ y.rel = LinkRel.type ∨
        y ∈ sp.extras := by
    intro y hy
    rcases List.mem_append.mp hy with h2 | h2
    · exact Or.inl (h.desc_rel y h2)
    · rcases hmem6 y h2 with h3 | h3 | h3
      · exact Or.inr (Or.inl h3)
      · exact Or.inr (Or.inr (Or.inl h3))
      · exact Or.inr (Or.inr (Or.inr h3))
  have n4 : (((sp.authors ++ (sp.describedBy ++ (sp.items ++ (sp.types ++ sp.extras)))).map
      Signpost.core)).Nodup := by
    refine nodup_core_append _ _ h.authors_nd n5 ?_
    intro x hx y hy
    apply core_ne_of_rel_ne
    intro hc
    rw [h.authors_rel x hx] at hc
    rcases hmem5 y hy with h2 | h2 | h2 | h2
    · rw [h2] at hc
      cases hc
    · rw [h2] at hc
      cases hc
    · rw [h2] at hc
      cases hc
    · rcases singletonRel_cases (h.extras_single y h2) with h3 | h3 | h3 <;>
        rw [h3] at hc <;> cases hc
  have hmem4 : ∀ y ∈ sp.authors ++ (sp.describedBy ++ (sp.items ++ (sp.types ++ sp.extras))),
      y.rel = LinkRel.author ∨ y.rel = LinkRel.describedby ∨ y.rel = LinkRel.item ∨
        y.rel = LinkRel.type ∨ y ∈ sp.extras := by
    intro y hy
    rcases List.mem_append.mp hy with h2 | h2
    · exact Or.inl (h.authors_rel y h2)
    · rcases hmem5 y h2 with h3 | h3 | h3 | h3
      · exact Or.inr (Or.inl h3)
      · exact Or.inr (Or.inr (Or.inl h3))
      · exact Or.inr (Or.inr (Or.inr (Or.inl h3)))
      · exact Or.inr (Or.inr (Or.inr (Or.inr h3)))
  have n3 : (((sp.collection.toList ++ (sp.authors ++ (sp.describedBy ++ (sp.items ++
      (sp.types ++ sp.extras))))).map Signpost.core)).Nodup := by
    refine nodup_core_append _ _ (nodup_core_option _) n4 ?_
    intro x hx y hy
    have hslot := mem_option_toList hx
    have hxr := h.col_rel x hslot
    rcases hmem4 y hy with h2 | h2 | h2 | h2 | h2
    · exact core_ne_of_rel_ne (by rw [hxr, h2]; decide)
    · exact core_ne_of_rel_ne (by rw [hxr, h2]; decide)
    · exact core_ne_of_rel_ne (by rw [hxr, h2]; decide)
    · exact core_ne_of_rel_ne (by rw [hxr, h2]; decide)
    · rcases singletonRel_cases (h.extras_single y h2) with h3 | h3 | h3
      · exact core_ne_of_rel_ne (by rw [hxr, h3]; decide)
      · exact core_ne_of_rel_ne (by rw [hxr, h3]; decide)
      · obtain ⟨z, hz, hne⟩ := h.extras_col y h2 h3
        rw [hslot] at hz
        injection hz with hzx
        apply core_ne_of_target_ne
        intro he
        exact hne (by rw [← hzx]; exact he.symm)
  have hmem3 : ∀ y ∈ sp.collection.toList ++ (sp.authors ++ (sp.describedBy ++ (sp.items ++
      (sp.types ++ sp.extras)))),
      y.rel = LinkRel.collection ∨ y.rel = LinkRel.author ∨ y.rel = LinkRel.describedby ∨
        y.rel = LinkRel.item ∨ y.rel = LinkRel.type ∨ y ∈ sp.extras := by
    intro y hy
    rcases List.mem_append.mp hy with h2 | h2
    · exact Or.inl (h.col_rel y (mem_option_toList h2))
    · rcases hmem4 y h2 with h3 | h3 | h3 | h3 | h3
      · exact Or.inr (Or.inl h3)
      · exact Or.inr (Or.inr (Or.inl h3))
      · exact Or.inr (Or.inr (Or.inr (Or.inl h3)))
      · exact Or.inr (Or.inr (Or.inr (Or.inr (Or.inl h3))))
      · exact Or.inr (Or.inr (Or.inr (Or.inr (Or.inr h3))))
  have n2 : (((sp.license.toList ++ (sp.collection.toList ++ (sp.authors ++ (sp.describedBy ++
      (sp.items ++ (sp.types ++ sp.extras)))))).map Signpost.core)).Nodup := by
    refine nodup_core_append _ _ (nodup_core_option _) n3 ?_
    intro x hx y hy
    have hslot := mem_option_toList hx
    have hxr := h.lic_rel x hslot
    rcases hmem3 y hy with h2 | h2 | h2 | h2 | h2 | h2
    · exact core_ne_of_rel_ne (by rw [hxr, h2]; decide)
    · exact core_ne_of_rel_ne (by rw [hxr, h2]; decide)
    · exact core_ne_of_rel_ne (by rw [hxr, h2]; decide)
    · exact core_ne_of_rel_ne (by rw [hxr, h2]; decide)
    · exact core_ne_of_rel_ne (by rw [hxr, h2]; decide)
    · rcases singletonRel_cases (h.extras_single y h2) with h3 | h3 | h3
      · exact core_ne_of_rel_ne (by rw [hxr, h3]; decide)
      · obtain ⟨z, hz, hne⟩ := h.extras_lic y h2 h3
        rw [hslot] at hz
        injection hz with hzx
        apply core_ne_of_target_ne
        intro he
        exact hne (by rw [← hzx]; exact he.symm)
      · exact core_ne_of_rel_ne (by rw [hxr, h3]; decide)
  have hmem2 : ∀ y ∈ sp.license.toList ++ (sp.collection.toList ++ (sp.authors ++
      (sp.describedBy ++ (sp.items ++ (sp.types ++ sp.extras))))),
      y.rel = LinkRel.license ∨ y.rel = LinkRel.collection ∨ y.rel = LinkRel.author ∨
        y.rel = LinkRel.describedby ∨ y.rel = LinkRel.item ∨ y.rel = LinkRel.type ∨
        y ∈ sp.extras := by
    intro y hy
    rcases List.mem_append.mp hy with h2 | h2
    · exact Or.inl (h.lic_rel y (mem_option_toList h2))
    · rcases hmem3 y h2 with h3 | h3 | h3 | h3 | h3 | h3
      · exact Or.inr (Or.inl h3)
      · exact Or.inr (Or.inr (Or.inl h3))
      · exact Or.inr (Or.inr (Or.inr (Or.inl h3)))
      · exact Or.inr (Or.inr (Or.inr (Or.inr (Or.inl h3))))
      · exact Or.inr (Or.inr (Or.inr (Or.inr (Or.inr (Or.inl h3)))))
      · exact Or.inr (Or.inr (Or.inr (Or.inr (Or.inr (Or.inr h3)))))
  have n1 : (((sp.citeAs.toList ++ (sp.license.toList ++ (sp.collection.toList ++
      (sp.authors ++ (sp.describedBy ++ (sp.items ++ (sp.types ++ sp.extras))))))).map
      Signpost.core)).Nodup := by
    refine nodup_core_append _ _ (nodup_core_option _) n2 ?_
    intro x hx y hy
    have hslot := mem_option_toList hx
    have hxr := h.cite_rel x hslot
    rcases hmem2 y hy with h2 | h2 | h2 | h2 | h2 | h2 | h2
    · exact core_ne_of_rel_ne (by rw [hxr, h2]; decide)
    · exact core_ne_of_rel_ne (by rw [hxr, h2]; decide)
    · exact core_ne_of_rel_ne (by rw [hxr, h2]; decide)
    · exact core_ne_of_rel_ne (by rw [hxr, h2]; decide)
    · exact core_ne_of_rel_ne (by rw [hxr, h2]; decide)
    · exact core_ne_of_rel_ne (by rw [hxr, h2]; decide)
    · rcases singletonRel_cases (h.extras_single y h2) with h3 | h3 | h3
      · obtain ⟨z, hz, hne⟩ := h.extras_cite y h2 h3
        rw [hslot] at hz
        injection hz with hzx
        apply core_ne_of_target_ne
        intro he
        exact hne (by rw [← hzx]; exact he.symm)
      · exact core_ne_of_rel_ne (by rw [hxr, h3]; decide)
      · exact core_ne_of_rel_ne (by rw [hxr, h3]; decide)
  unfold Signposting.iterList
  simpa only [List.append_assoc] using n1

/-- `Signpost.__hash__` as a function of the `_eq_attribs` tuple alone. -/
def coreHash
    (t : Option AbsoluteURI × LinkRel × AbsoluteURI × Option MediaType × Finset AbsoluteURI) :
    Nat :=
  strHash "Signpost" ^^^ optUriHash t.1 ^^^ relHash t.2.1 ^^^
    uriHash t.2.2.1 ^^^ mtHash t.2.2.2.1 ^^^ profilesHash t.2.2.2.2

theorem sigHash_eq_coreHash (s : Signpost) : s.sigHash = coreHash s.core := rfl

theorem foldl_xor_perm {α : Type} (f : α → Nat) {l1 l2 : List α} (hp : l1.Perm l2) :
    ∀ b : Nat, l1.foldl (fun h e => h ^^^ f e) b = l2.foldl (fun h e => h ^^^ f e) b := by
  induction hp with
  | nil => intro b; rfl
  | cons x h ih =>
    intro b
    simp only [List.foldl_cons]
    exact ih _
  | swap x y l =>
    intro b
    simp only [List.foldl_cons]
    rw [Nat.xor_assoc, Nat.xor_assoc, Nat.xor_comm (f y) (f x)]
  | trans h1 h2 ih1 ih2 =>
    intro b
    rw [ih1 b, ih2 b]

theorem spHash_as_corefold (sp : Signposting) :
    sp.spHash = (sp.iterList.map Signpost.core).foldl
      (fun h t => h ^^^ coreHash t) (strHash "Signposting") := by
  unfold Signposting.spHash
  rw [List.foldl_map]
  rfl

theorem spHash_eq_of_core_perm (a b : Signposting)
    (hp : (a.iterList.map Signpost.core).Perm (b.iterList.map Signpost.core)) :
    a.spHash = b.spHash := by
  rw [spHash_as_corefold, spHash_as_corefold]
  exact foldl_xor_perm coreHash hp _

/-- C10: `Signposting` equality and hash ignore the aggregates own
`context_url` and the other-context bucket: two aggregates compare equal
exactly when the sets of `_eq_attribs` tuples of their iterated signposts
coincide; replacing `context_url`, `others` and `other_contexts` changes
neither equality nor hash; every constructed aggregate iterates without
duplicate tuples; and on duplicate-free iterations, equality implies equal
hashes (hash is consistent with this equality). -/
theorem C10_signposting_eq_hash :
    (∀ a b : Signposting, a.spEq b = true ↔ coreSet a.iterList = coreSet b.iterList)
    ∧ (∀ (a b : Signposting) (c1 c2 : Option AbsoluteURI) (o1 o2 : List Signpost)
        (oc1 oc2 : List AbsoluteURI),
        Signposting.spEq { a with context_url := c1, others := o1, other_contexts := oc1 }
            { b with context_url := c2, others := o2, other_contexts := oc2 }
          = a.spEq b
        ∧ Signposting.spHash { a with context_url := c1, others := o1, other_contexts := oc1 }
          = a.spHash)
    ∧ (∀ (ctx : Option AbsoluteURI) (l : List Signpost) (inc w : Bool),
        (((constructCore ctx l inc w).1.iterList.map Signpost.core)).Nodup)
    ∧ (∀ a b : Signposting,
        ((a.iterList.map Signpost.core)).Nodup → ((b.iterList.map Signpost.core)).Nodup →
        a.spEq b = true → a.spHash = b.spHash) := by
  refine ⟨?_, ?_, ?_, ?_⟩
  · intro a b
    unfold Signposting.spEq
    exact decide_eq_true_iff
  · intro a b c1 c2 o1 o2 oc1 oc2
    exact ⟨rfl, rfl⟩
  · intro ctx l inc w
    exact BucketInv_iter_nodup _ (constructCore_BucketInv ctx l inc w)
  · intro a b hna hnb he
    have hset : coreSet a.iterList = coreSet b.iterList := by
      unfold Signposting.spEq at he
      exact of_decide_eq_true he
    exact spHash_eq_of_core_perm a b
      (List.perm_of_nodup_nodup_toFinset_eq hna hnb hset)

theorem C10_witness :
    (((constructCore (some ⟨"http://example.com/doc1"⟩)
        [⟨.cite_as, ⟨"http://example.com/pid"⟩, none, ∅, none, none⟩]
        true true).1.iterList.map Signpost.core)).Nodup
    ∧ (((constructCore (some ⟨"http://example.com/doc2"⟩)
        [⟨.cite_as, ⟨"http://example.com/pid"⟩, none, ∅, none, none⟩,
         ⟨.author, ⟨"http://example.com/alice"⟩, none, ∅,
           some ⟨"http://example.com/other"⟩, none⟩]
        true true).1.iterList.map Signpost.core)).Nodup
    ∧ (constructCore (some ⟨"http://example.com/doc1"⟩)
        [⟨.cite_as, ⟨"http://example.com/pid"⟩, none, ∅, none, none⟩]
        true true).1.spEq
      (constructCore (some ⟨"http://example.com/doc2"⟩)
        [⟨.cite_as, ⟨"http://example.com/pid"⟩, none, ∅, none, none⟩,
         ⟨.author, ⟨"http://example.com/alice"⟩, none, ∅,
           some ⟨"http://example.com/other"⟩, none⟩]
        true true).1 = true
    ∧ (constructCore (some ⟨"http://example.com/doc1"⟩)
        [⟨.cite_as, ⟨"http://example.com/pid"⟩, none, ∅, none, none⟩]
        true true).1.spHash
      = (constructCore (some ⟨"http://example.com/doc2"⟩)
        [⟨.cite_as, ⟨"http://example.com/pid"⟩, none, ∅, none, none⟩,
         ⟨.author, ⟨"http://example.com/alice"⟩, none, ∅,
           some ⟨"http://example.com/other"⟩, none⟩]
        true true).1.spHash := by
  refine ⟨by decide, by decide, by decide, ?_⟩
  exact C10_signposting_eq_hash.2.2.2 _ _ (by decide) (by decide) (by decide)

theorem optTruthy_isNone {o : Option AbsoluteURI} (h : optTruthy o = true) :
    o.isNone = false := by
  cases o with
  | none => exact absurd h (by decide)
  | some u => rfl

theorem nonOther_context_eq {ctx : Option AbsoluteURI} {s : Signpost}
    (htr : optTruthy ctx = true) (hno : isOtherB false ctx s = false) :
    s.context = ctx := by
  unfold isOtherB effContext at hno
  simp [htr] at hno
  exact hno.symm

theorem isOtherB_true_intro {ctx : Option AbsoluteURI} (s : Signpost)
    (htr : optTruthy ctx = true) (hne : ¬(ctx = s.context)) :
    isOtherB false ctx s = true := by
  unfold isOtherB effContext
  simp [htr, hne]

theorem isOtherB_false_intro {ctx : Option AbsoluteURI} (s : Signpost)
    (he : s.context = ctx) : isOtherB false ctx s = false := by
  unfold isOtherB effContext
  simp [he]

theorem classifyStep_citeCtx (w : Bool) (st : BuildState) (s : Signpost)
    (htr : optTruthy st.sp.context_url = true)
    (hctx : ∀ z, st.sp.citeAs = some z → z.context = st.sp.context_url) :
    ∀ z, (classifyStep false w st s).sp.citeAs = some z →
      z.context = st.sp.context_url := by
  intro z hz
  cases ho : isOtherB false st.sp.context_url s with
  | true =>
    rw [(classifyStep_other false w st s ho).1] at hz
    exact hctx z hz
  | false =>
    have hsc : s.context = st.sp.context_url := nonOther_context_eq htr ho
    by_cases hrel : s.rel = .cite_as
    · cases hcz : st.sp.citeAs with
      | none =>
        rw [(classifyStep_cite_fill false w st s ho hrel hcz).1] at hz
        have h2 : some s = some z := hz
        injection h2 with h3
        rw [← h3]
        exact hsc
      | some z0 =>
        cases hd : decide (z0.target = s.target) with
        | true =>
          rw [(classifyStep_cite_replace false w st s z0 ho hrel hcz
            (of_decide_eq_true hd)).1] at hz
          have h2 : some s = some z := hz
          injection h2 with h3
          rw [← h3]
          exact hsc
        | false =>
          rw [(classifyStep_cite_dup false w st s z0 ho hrel hcz
            (of_decide_eq_false hd)).1] at hz
          have h2 : st.sp.citeAs = some z := hz
          exact hctx z h2
    · rw [classifyStep_citeAs_nonCite false w st s ho hrel] at hz
      exact hctx z hz

theorem foldl_citeCtx (w : Bool) (l : List Signpost) :
    ∀ (st : BuildState), optTruthy st.sp.context_url = true →
      (∀ z, st.sp.citeAs = some z → z.context = st.sp.context_url) →
      ∀ z, ((l.foldl (classifyStep false w) st)).sp.citeAs = some z →
        z.context = st.sp.context_url := by
  induction l with
  | nil =>
    intro st htr hctx z hz
    exact hctx z hz
  | cons x xs ih =>
    intro st htr hctx z hz
    rw [List.foldl_cons] at hz
    have hcu : (classifyStep false w st x).sp.context_url = st.sp.context_url :=
      classifyStep_ctx false w st x
    have hres := ih (classifyStep false w st x) (by rw [hcu]; exact htr)
      (by intro z2 hz2
          rw [hcu]
          exact classifyStep_citeCtx w st x htr hctx z2 hz2) z hz
    rw [hcu] at hres
    exact hres

theorem constructCore_citeCtx (ctx : Option AbsoluteURI) (l : List Signpost) (w : Bool)
    (htr : optTruthy ctx = true) :
    ∀ z, (constructCore ctx l false w).1.citeAs = some z → z.context = ctx := by
  intro z hz
  unfold constructCore at hz
  dsimp only at hz
  rw [if_pos htr] at hz
  exact foldl_citeCtx w l _ htr (fun z2 h => Option.noConfusion h) z hz

theorem foldl_classify_others_mem (inc w : Bool) (l : List Signpost) :
    ∀ (st : BuildState) (e : Signpost), e ∈ l →
      isOtherB inc st.sp.context_url e = true →
      coreMem e ((l.foldl (classifyStep inc w) st)).sp.others := by
  induction l with
  | nil =>
    intro st e he
    cases he
  | cons x xs ih =>
    intro st e he ho
    rw [List.foldl_cons]
    rcases List.mem_cons.mp he with he1 | he1
    · apply foldl_others_mono inc w xs (classifyStep inc w st x) e
      obtain ⟨oc, hrec⟩ := classifyStep_other_record inc w st x
        (by rw [← he1]; exact ho)
      rw [hrec, he1]
      exact coreMem_pyAdd_self _ _
    · apply ih
      · exact he1
      · rw [classifyStep_ctx]
        exact ho

theorem constructCore_others_mem (ctx : Option AbsoluteURI) (l : List Signpost)
    (inc w : Bool) (e : Signpost) (hel : e ∈ l)
    (ho : isOtherB inc (if optTruthy ctx then ctx else none) e = true) :
    coreMem e (constructCore ctx l inc w).1.others := by
  unfold constructCore
  dsimp only
  exact foldl_classify_others_mem inc w l _ e hel ho

theorem coreMem_iterList_of_citeAs (sp : Signposting) (z e : Signpost)
    (hz : sp.citeAs = some z) (he : z.core = e.core) : coreMem e sp.iterList := by
  unfold coreMem
  refine List.mem_map.mpr ⟨z, ?_, he⟩
  unfold Signposting.iterList
  rw [hz]
  simp

theorem constructCore_cite_retrievable (ctx : Option AbsoluteURI) (l : List Signpost)
    (inc w : Bool) (e : Signpost) (hel : e ∈ l) (herel : e.rel = .cite_as)
    (hno : isOtherB inc (if optTruthy ctx then ctx else none) e = false)
    (hfree : ∀ s ∈ l, s.rel = .cite_as → s.target = e.target → s.core = e.core) :
    coreMem e ((constructCore ctx l inc w).1.iterList) := by
  obtain ⟨pre, post, hl⟩ := List.append_of_mem hel
  unfold constructCore
  dsimp only
  rw [hl, List.foldl_append, List.foldl_cons]
  generalize hst : pre.foldl (classifyStep inc w)
      { sp := Signposting.empty (if optTruthy ctx then ctx else none),
        warnings := [] } = st1
  have hctx1 : st1.sp.context_url = (if optTruthy ctx then ctx else none) := by
    rw [← hst]
    exact foldl_classify_ctx inc w pre _
  have hno1 : isOtherB inc st1.sp.context_url e = false := by
    rw [hctx1]
    exact hno
  have hfree2 : ∀ y ∈ post, y.rel = .cite_as → y.target = e.target → y.core = e.core := by
    intro y hy h1 h2
    exact hfree y
      (by rw [hl]; exact List.mem_append.mpr (Or.inr (List.mem_cons.mpr (Or.inr hy))))
      h1 h2
  cases hz : st1.sp.citeAs with
  | none =>
    have hrec := (classifyStep_cite_fill inc w st1 e hno1 herel hz).1
    have hslot : (classifyStep inc w st1 e).sp.citeAs = some e := by rw [hrec]
    obtain ⟨z2, hz2, hz2core⟩ := foldl_citeAs_core inc w post (classifyStep inc w st1 e)
      e hslot (fun y hy _ hyrel hyt => hfree2 y hy hyrel hyt)
    exact coreMem_iterList_of_citeAs _ z2 e hz2 hz2core
  | some z0 =>
    cases hd : decide (z0.target = e.target) with
    | true =>
      have hrec := (classifyStep_cite_replace inc w st1 e z0 hno1 herel hz
        (of_decide_eq_true hd)).1
      have hslot : (classifyStep inc w st1 e).sp.citeAs = some e := by rw [hrec]
      obtain ⟨z2, hz2, hz2core⟩ := foldl_citeAs_core inc w post (classifyStep inc w st1 e)
        e hslot (fun y hy _ hyrel hyt => hfree2 y hy hyrel hyt)
      exact coreMem_iterList_of_citeAs _ z2 e hz2 hz2core
    | false =>
      have hrec := (classifyStep_cite_dup inc w st1 e z0 hno1 herel hz
        (of_decide_eq_false hd)).1
      have hmem : coreMem e (classifyStep inc w st1 e).sp.extras := by
        rw [hrec]
        exact coreMem_pyAdd_self _ _
      exact coreMem_iterList_of_extras _ _ (foldl_extras_mono inc w post _ e hmem)

theorem orMerge_eq (a b : Signposting) :
    a.orMerge b = .ok
      (constructCore (if optTruthy a.context_url then a.context_url
          else if optTruthy b.context_url then b.context_url else none)
        (if optTruthy (if optTruthy a.context_url then a.context_url
            else if optTruthy b.context_url then b.context_url else none) then
          a.explicitList ++ b.explicitList
        else a.signpostsList ++ b.signpostsList)
        (!optTruthy (if optTruthy a.context_url then a.context_url
          else if optTruthy b.context_url then b.context_url else none)) false) := by
  unfold Signposting.orMerge Signposting.construct
  dsimp only
  rw [show ∀ t : Bool, (!(!t) && !t) = false from by decide]
  rw [if_neg Bool.false_ne_true]
  rfl

theorem for_context_truthy (sp : Signposting) (ctx : Option AbsoluteURI)
    (htr : optTruthy ctx = true) :
    sp.for_context ctx = .ok (constructCore ctx sp.explicitList false true) := by
  unfold Signposting.for_context Signposting.construct
  dsimp only
  simp [optTruthy_isNone htr, htr]

/-- C6: the union merge always succeeds and takes the left context if
truthy, else the right context if truthy, else None.  AMENDED: when both
operands have distinct truthy contexts, the right operand's citeAs
(anchored to its own context) is excluded from the result's citeAs slot
(every slot occupant carries the left context) and lands in the result's
other-context bucket; it is retrievable via for_context of the right
context PROVIDED the rebuilt list contains no same-target cite-as
signpost with a different attribute tuple (without that collision-freedom
the equal-target replacement of the singleton slot can discard it, as the
counterexample shows). -/
theorem C6_union_merge :
    (∀ a b : Signposting, ∃ c wc, a.orMerge b = .ok (c, wc) ∧
      c.context_url = (if optTruthy a.context_url then a.context_url
        else if optTruthy b.context_url then b.context_url else none))
    ∧ (∀ (a b : Signposting) (p : Signpost) (c : Signposting) (wc : List String),
        optTruthy a.context_url = true → optTruthy b.context_url = true →
        ¬(b.context_url = a.context_url) →
        b.citeAs = some p → p.rel = .cite_as → p.context = b.context_url →
        a.orMerge b = .ok (c, wc) →
        c.context_url = a.context_url
        ∧ (∀ z, c.citeAs = some z → z.context = a.context_url)
        ∧ ¬(c.citeAs = some p)
        ∧ coreMem p c.others
        ∧ ((∀ s ∈ c.explicitList, s.rel = .cite_as → s.target = p.target →
              s.core = p.core) →
            ∃ r, c.for_context b.context_url = .ok r ∧ coreMem p r.1.iterList)) := by
  constructor
  · intro a b
    rcases hC : constructCore (if optTruthy a.context_url then a.context_url
        else if optTruthy b.context_url then b.context_url else none)
      (if optTruthy (if optTruthy a.context_url then a.context_url
          else if optTruthy b.context_url then b.context_url else none) then
        a.explicitList ++ b.explicitList
      else a.signpostsList ++ b.signpostsList)
      (!optTruthy (if optTruthy a.context_url then a.context_url
        else if optTruthy b.context_url then b.context_url else none)) false
      with ⟨c, wc⟩
    refine ⟨c, wc, ?_, ?_⟩
    · rw [orMerge_eq a b, hC]
    · have h2 := constructCore_ctx (if optTruthy a.context_url then a.context_url
          else if optTruthy b.context_url then b.context_url else none)
        (if optTruthy (if optTruthy a.context_url then a.context_url
            else if optTruthy b.context_url then b.context_url else none) then
          a.explicitList ++ b.explicitList
        else a.signpostsList ++ b.signpostsList)
        (!optTruthy (if optTruthy a.context_url then a.context_url
          else if optTruthy b.context_url then b.context_url else none)) false
      rw [hC] at h2
      have h3 : c.context_url = (if optTruthy (if optTruthy a.context_url then
          a.context_url else if optTruthy b.context_url then b.context_url
          else none) then (if optTruthy a.context_url then a.context_url
          else if optTruthy b.context_url then b.context_url else none)
          else none) := h2
      rw [h3]
      cases ha : optTruthy a.context_url with
      | true => simp [ha]
      | false =>
        cases hb : optTruthy b.context_url with
        | true => simp [ha, hb]
        | false => simp [ha, hb]
  · intro a b p c wc htra htrb hneq hbcite hprel hpctx hmerge
    rw [orMerge_eq a b] at hmerge
    simp [htra] at hmerge
    have hc : (constructCore a.context_url (a.explicitList ++ b.explicitList)
        false false).1 = c := by rw [hmerge]
    subst hc
    have hpiter : p ∈ b.iterList := by
      unfold Signposting.iterList
      rw [hbcite]
      simp
    have hpexp : p ∈ b.explicitList := by
      unfold Signposting.explicitList
      refine List.mem_append.mpr (Or.inl (List.mem_map.mpr ⟨p, hpiter, ?_⟩))
      show (if !optTruthy p.context && optTruthy b.context_url then
          p.with_context b.context_url else p) = p
      rw [hpctx]
      simp [htrb]
    have hoth : coreMem p (constructCore a.context_url
        (a.explicitList ++ b.explicitList) false false).1.others := by
      refine constructCore_others_mem a.context_url _ false false p
        (List.mem_append.mpr (Or.inr hpexp)) ?_
      rw [if_pos htra]
      refine isOtherB_true_intro p htra ?_
      rw [hpctx]
      exact fun h => hneq h.symm
    have hslotctx : ∀ z, (constructCore a.context_url
        (a.explicitList ++ b.explicitList) false false).1.citeAs = some z →
        z.context = a.context_url :=
      constructCore_citeCtx a.context_url _ false htra
    refine ⟨?_, hslotctx, ?_, hoth, ?_⟩
    · rw [constructCore_ctx, if_pos htra]
    · intro hcp
      have hp2 := hslotctx p hcp
      rw [hpctx] at hp2
      exact hneq hp2
    · intro Hcoll
      obtain ⟨q, hqmem, hqcore⟩ := coreMem_iff_exists.mp hoth
      have hqrel : q.rel = .cite_as := by
        rw [← core_rel q, hqcore, core_rel]
        exact hprel
      have hqctx : q.context = b.context_url := by
        rw [← core_context q, hqcore, core_context]
        exact hpctx
      have hqtar : q.target = p.target := by
        rw [← core_target q, hqcore, core_target]
      have hqexp : q ∈ (constructCore a.context_url
          (a.explicitList ++ b.explicitList) false false).1.explicitList := by
        unfold Signposting.explicitList
        refine List.mem_append.mpr (Or.inr (List.mem_filter.mpr ⟨hqmem, ?_⟩))
        show (!(!optTruthy q.context && optTruthy (constructCore a.context_url
            (a.explicitList ++ b.explicitList) false false).1.context_url)) = true
        rw [hqctx]
        simp [htrb]
      have hq_ret := constructCore_cite_retrievable b.context_url
        ((constructCore a.context_url (a.explicitList ++ b.explicitList)
          false false).1.explicitList) false true q hqexp hqrel
        (by rw [if_pos htrb]; exact isOtherB_false_intro q hqctx)
        (by intro s hs h1 h2
            rw [hqtar] at h2
            rw [hqcore]
            exact Hcoll s hs h1 h2)
      refine ⟨_, for_context_truthy _ _ htrb, ?_⟩
      unfold coreMem at hq_ret ⊢
      rw [hqcore] at hq_ret
      exact hq_ret

/-- Concrete cite-as signpost anchored to doc2 (no media type). -/
def c6q : Signpost :=
  ⟨.cite_as, ⟨"http://example.com/pid"⟩, none, ∅, some ⟨"http://example.com/doc2"⟩, none⟩

/-- Same target and context as `c6q` but with a media type, so the two
compare unequal while sharing the target. -/
def c6r : Signpost :=
  ⟨.cite_as, ⟨"http://example.com/pid"⟩, some ⟨"text/html"⟩, ∅,
    some ⟨"http://example.com/doc2"⟩, none⟩

/-- Left operand for the counterexample: context doc1, with the two
colliding doc2-anchored cite-as signposts in its other-context bucket. -/
def c6a : Signposting :=
  (constructCore (some ⟨"http://example.com/doc1"⟩) [c6q, c6r] true true).1

/-- Left operand for the witness scenario: context doc1 and no signposts. -/
def c6a2 : Signposting :=
  (constructCore (some ⟨"http://example.com/doc1"⟩) [] true true).1

/-- Right operand: context doc2, citeAs slot holding `c6q`. -/
def c6b : Signposting :=
  (constructCore (some ⟨"http://example.com/doc2"⟩) [c6q] true true).1

instance decCoreMem (s : Signpost) (l : List Signpost) : Decidable (coreMem s l) :=
  inferInstanceAs (Decidable (s.core ∈ l.map Signpost.core))

/-- C6 counterexample: B's citeAs `c6q` (anchored to doc2) is NOT
retrievable from `(A | B).for_context doc2` — the colliding equal-target
signpost `c6r` replaces it in the rebuilt cite-as slot and its tuple is
lost — refuting the unconditional retrievability reading; the context
precedence part does hold (second conjunct). -/
theorem C6_counterexample :
    c6b.citeAs = some c6q
    ∧ (c6a.orMerge c6b).toOption.map (fun pr => pr.1.context_url)
        = some (some ⟨"http://example.com/doc1"⟩)
    ∧ (c6a.orMerge c6b).toOption.map (fun pr =>
        (pr.1.for_context (some ⟨"http://example.com/doc2"⟩)).toOption.map
          (fun pr2 => decide (coreMem c6q pr2.1.iterList)))
        = some (some false) := by
  refine ⟨by decide, by decide, by decide⟩

theorem C6_witness :
    coreMem c6q (constructCore (some ⟨"http://example.com/doc1"⟩)
      (c6a2.explicitList ++ c6b.explicitList) false false).1.others
    ∧ ∃ r, (constructCore (some ⟨"http://example.com/doc1"⟩)
        (c6a2.explicitList ++ c6b.explicitList) false false).1.for_context
        (some ⟨"http://example.com/doc2"⟩) = .ok r ∧ coreMem c6q r.1.iterList := by
  have h := C6_union_merge.2 c6a2 c6b c6q
    (constructCore (some ⟨"http://example.com/doc1"⟩)
      (c6a2.explicitList ++ c6b.explicitList) false false).1
    (constructCore (some ⟨"http://example.com/doc1"⟩)
      (c6a2.explicitList ++ c6b.explicitList) false false).2
    (by decide) (by decide) (by decide) (by decide) (by decide) (by decide) rfl
  exact ⟨h.2.2.2.1, h.2.2.2.2 (by decide)⟩

theorem for_context_none (sp : Signposting) :
    sp.for_context none = .ok (constructCore none sp.signpostsList true true) := by
  unfold Signposting.for_context Signposting.construct
  rfl

theorem explicitList_eq_viewList (sp : Signposting)
    (h : ∀ x ∈ sp.viewList, optTruthy x.context = true) :
    sp.explicitList = sp.viewList := by
  unfold Signposting.explicitList Signposting.viewList
  have hcong : ∀ x ∈ sp.iterList,
      (if !optTruthy x.context && optTruthy sp.context_url then
        x.with_context sp.context_url
      else x) = x := by
    intro x hx
    have htx := h x (List.mem_append.mpr (Or.inl hx))
    simp [htx]
  have hfil : sp.others.filter (fun o =>
      !(!optTruthy o.context && optTruthy sp.context_url)) = sp.others := by
    refine List.filter_eq_self.mpr ?_
    intro o ho
    have hto := h o (List.mem_append.mpr (Or.inr ho))
    simp [hto]
  rw [(List.map_congr_left hcong).trans (List.map_id _), hfil]

/-- C2 (AMENDED): the round trip for_context(c) then for_context(None)
preserves the full signposts view as a set of signpost tuples, PROVIDED
the aggregate has a truthy context and every signpost of its view carries
a truthy explicit context (otherwise the first rebuild re-anchors implicit
signposts, changing their tuples), none is a linkset (linkset slots never
re-surface in iteration), and no two same-relation same-target singletons
differ in their tuple (otherwise the equal-target slot replacement drops
one). -/
theorem C2_round_trip :
    ∀ s : Signposting, optTruthy s.context_url = true →
      (∀ x ∈ s.viewList, optTruthy x.context = true) →
      (∀ x ∈ s.viewList, x.rel ≠ .linkset) →
      (∀ x ∈ s.viewList, ∀ y ∈ s.viewList, x.rel = y.rel →
        isSingletonRel y.rel = true → x.target = y.target → x.core = y.core) →
      ∃ m r, s.for_context s.context_url = .ok m
        ∧ m.1.for_context none = .ok r
        ∧ coreSet r.1.signpostsList = coreSet s.signpostsList := by
  intro s htr H1 H2 H3
  have hfc1 := for_context_truthy s s.context_url htr
  rw [explicitList_eq_viewList s H1] at hfc1
  refine ⟨_, _, hfc1, for_context_none _, ?_⟩
  have hsub : ∀ e ∈ (constructCore s.context_url s.viewList false true).1.signpostsList,
      e ∈ s.viewList :=
    fun e he => constructCore_subset _ _ _ _ e (pyFrozenset_subset _ e he)
  have hview_m := constructCore_view s.context_url s.viewList false true H2 H3
  have hview_r := constructCore_view none
    ((constructCore s.context_url s.viewList false true).1.signpostsList) true true
    (fun x hx => H2 x (hsub x hx))
    (fun x hx y hy => H3 x (hsub x hx) y (hsub y hy))
  exact (pyFrozenset_coreSet _).trans (hview_r.trans ((pyFrozenset_coreSet _).trans
    (hview_m.trans (pyFrozenset_coreSet _).symm)))

/-- A cite-as signpost with no explicit context (relies on the implicit
aggregate context). -/
def c2p0 : Signpost :=
  ⟨.cite_as, ⟨"http://example.com/pid"⟩, none, ∅, none, none⟩

/-- Aggregate with context doc1 holding the contextless `c2p0`. -/
def c2s : Signposting :=
  (constructCore (some ⟨"http://example.com/doc1"⟩) [c2p0] true true).1

/-- Aggregate with context doc1 holding one cite-as signpost explicitly
anchored to doc1. -/
def c2w : Signposting :=
  (constructCore (some ⟨"http://example.com/doc1"⟩)
    [⟨.cite_as, ⟨"http://example.com/pid"⟩, none, ∅,
      some ⟨"http://example.com/doc1"⟩, none⟩] true true).1

/-- C2 counterexample: with an implicit-context signpost in the view, the
round trip re-anchors it to the aggregate context, so the resulting
signposts view differs from the original as a set of signpost tuples. -/
theorem C2_counterexample :
    c2s.context_url = some ⟨"http://example.com/doc1"⟩
    ∧ c2s.signpostsList = [c2p0]
    ∧ (c2s.for_context c2s.context_url).toOption.map (fun pr =>
        (pr.1.for_context none).toOption.map (fun pr2 =>
          decide (coreSet pr2.1.signpostsList = coreSet c2s.signpostsList)))
      = some (some false) :=
  ⟨by decide, by decide, by decide⟩

theorem C2_witness :
    ∃ m r, c2w.for_context c2w.context_url = .ok m
      ∧ m.1.for_context none = .ok r
      ∧ coreSet r.1.signpostsList = coreSet c2w.signpostsList :=
  C2_round_trip c2w (by decide) (by decide) (by decide) (by decide)
